import Mathlib

/-!
# Advanced RAID Calculator: capacity engine

A shallow embedding of the capacity engine of `script.js` (the functions
`convertTBtoTiB`, `calculateRAIDStorage`, `calculateSHR`, `calculateUnraid` and
`calculateZFSVdevStorage`, with the table `RAID_CONFIGS`), and theorems about it.

## Numbers

JavaScript numbers are modelled by `JSNum`: an exact rational, or one of the three
special values `Infinity`, `-Infinity`, `NaN`.  Arithmetic on rationals is exact (no
rounding), and the special values follow the IEEE rules that JavaScript uses
(`Math.min()` of no arguments is `Infinity`, `x / 0` is `±Infinity` or `NaN`, and so on).
Zero carries no sign: a division by zero takes the sign of the numerator.

## Failure

A JavaScript `throw` is modelled by `Except.error`, a `return` by `Except.ok`.
-/

namespace RaidCalc

/-! ## JavaScript numbers in exact arithmetic -/

/-- A JavaScript number: an exact rational, `Infinity`, `-Infinity` or `NaN`. -/
inductive JSNum where
  | fin (q : ℚ)
  | posInf
  | negInf
  | nan
deriving DecidableEq

namespace JSNum

/-- Unary minus. -/
def neg : JSNum → JSNum
  | fin q => fin (-q)
  | posInf => negInf
  | negInf => posInf
  | nan => nan

/-- The JavaScript `+` on numbers. -/
def add : JSNum → JSNum → JSNum
  | fin a, fin b => fin (a + b)
  | nan, _ => nan
  | _, nan => nan
  | posInf, negInf => nan
  | negInf, posInf => nan
  | posInf, _ => posInf
  | _, posInf => posInf
  | negInf, _ => negInf
  | _, negInf => negInf

/-- The JavaScript binary `-` on numbers. -/
def sub (a b : JSNum) : JSNum := add a (neg b)

/-- The product of an infinity of sign `pos` with the rational `q`. -/
def infTimes (pos : Bool) (q : ℚ) : JSNum :=
  if q = 0 then nan
  else if 0 < q then (if pos then posInf else negInf)
  else (if pos then negInf else posInf)

/-- The JavaScript `*` on numbers. -/
def mul : JSNum → JSNum → JSNum
  | fin a, fin b => fin (a * b)
  | nan, _ => nan
  | _, nan => nan
  | posInf, fin b => infTimes true b
  | negInf, fin b => infTimes false b
  | fin a, posInf => infTimes true a
  | fin a, negInf => infTimes false a
  | posInf, posInf => posInf
  | negInf, negInf => posInf
  | posInf, negInf => negInf
  | negInf, posInf => negInf

/-- The JavaScript `/` on numbers (zero is unsigned: `x / 0` has the sign of `x`). -/
def div : JSNum → JSNum → JSNum
  | fin a, fin b =>
    if b = 0 then (if a = 0 then nan else if 0 < a then posInf else negInf) else fin (a / b)
  | nan, _ => nan
  | _, nan => nan
  | fin _, posInf => fin 0
  | fin _, negInf => fin 0
  | posInf, fin b => if 0 ≤ b then posInf else negInf
  | negInf, fin b => if 0 ≤ b then negInf else posInf
  | posInf, posInf => nan
  | posInf, negInf => nan
  | negInf, posInf => nan
  | negInf, negInf => nan

instance : Zero JSNum := ⟨fin 0⟩
instance : Add JSNum := ⟨add⟩
instance : Sub JSNum := ⟨sub⟩
instance : Mul JSNum := ⟨mul⟩
instance : Div JSNum := ⟨div⟩

/-- The JavaScript `<` on numbers: false whenever an operand is `NaN`. -/
def lt : JSNum → JSNum → Bool
  | fin a, fin b => decide (a < b)
  | nan, _ => false
  | _, nan => false
  | negInf, negInf => false
  | negInf, _ => true
  | _, negInf => false
  | posInf, _ => false
  | _, posInf => true

/-- An integer as a JavaScript number. -/
def ofInt (z : ℤ) : JSNum := fin (z : ℚ)

/-- An array length or count as a JavaScript number. -/
def ofNat (n : ℕ) : JSNum := fin (n : ℚ)

end JSNum

open JSNum

/-- The function `Math.min(...xs)`: `Infinity` for no arguments, `NaN` as soon as one
argument is `NaN`, otherwise the least argument. -/
def mathMin (xs : List JSNum) : JSNum :=
  xs.foldl
    (fun lowest x =>
      if lowest = nan ∨ x = nan then nan else if JSNum.lt x lowest then x else lowest)
    posInf

/-- The method `Array.prototype.sort(compare)` on a copy of `xs`: a stable sort that keeps
`a` before `b` unless `compare(a, b) > 0`.  (The standard leaves the order to the engine
when `compare` is inconsistent, which here happens only with `NaN` elements.) -/
def jsSort (compare : JSNum → JSNum → JSNum) (xs : List JSNum) : List JSNum :=
  xs.insertionSort (fun a b => JSNum.lt (fin 0) (compare a b) = false)

/-- The method `Array.prototype.slice(start, end)` for integer arguments: a negative index
counts from the end, and both are clamped to the array. -/
def jsSlice {α : Type} (xs : List α) (start stop : ℤ) : List α :=
  let len : ℤ := xs.length
  let k : ℤ := if start < 0 then max (len + start) 0 else min start len
  let final : ℤ := if stop < 0 then max (len + stop) 0 else min stop len
  (xs.drop k.toNat).take (final - k).toNat

/-- The method `reduce((sum, size) => sum + size, 0)`. -/
def reduceSum (xs : List JSNum) : JSNum :=
  xs.foldl (fun sum size => sum + size) (fin 0)

/-! ## Constants and the scheme table -/

/-- The constant `TB_TO_BYTES_DECIMAL = 1000000000000`. -/
def TB_TO_BYTES_DECIMAL : JSNum := fin 1000000000000

/-- The constant `TB_TO_BYTES_BINARY = 1099511627776`. -/
def TB_TO_BYTES_BINARY : JSNum := fin 1099511627776

/-- One entry of `RAID_CONFIGS`. -/
structure RaidConfig where
  name : String
  description : String
  minDrives : ℕ
  faultTolerance : ℕ
  readPerformance : String
  writePerformance : String
  /-- The field `efficiency`; `none` is the source's `null`. -/
  efficiency : Option ℚ
deriving DecidableEq

/-- The entries of `RAID_CONFIGS`, in source order. -/
def RAID_CONFIGS_ENTRIES : List (String × RaidConfig) :=
  [ ("raid0", ⟨"RAID 0", "Striping - Maximum performance, no redundancy",
      2, 0, "Excellent", "Excellent", some 1⟩),
    ("raid1", ⟨"RAID 1", "Mirroring - 100% redundancy",
      2, 1, "Good", "Moderate", some (1/2)⟩),
    ("raid5", ⟨"RAID 5", "Single parity - Good balance of performance and redundancy",
      3, 1, "Good", "Moderate", none⟩),
    ("raid6", ⟨"RAID 6", "Double parity - Enhanced fault tolerance",
      4, 2, "Good", "Moderate", none⟩),
    ("raid10", ⟨"RAID 10", "Mirrored stripes - Best performance with redundancy",
      4, 1, "Excellent", "Good", some (1/2)⟩),
    ("shr", ⟨"Synology Hybrid RAID", "Flexible RAID with single disk fault tolerance",
      2, 1, "Good", "Moderate", none⟩),
    ("shr2", ⟨"Synology Hybrid RAID 2", "Flexible RAID with dual disk fault tolerance",
      4, 2, "Good", "Moderate", none⟩),
    ("zfs-stripe", ⟨"ZFS Stripe", "No redundancy - Maximum capacity",
      1, 0, "Excellent", "Excellent", some 1⟩),
    ("zfs-mirror", ⟨"ZFS Mirror", "Mirrored vdevs - High redundancy",
      2, 1, "Excellent", "Good", some (1/2)⟩),
    ("raidz1", ⟨"RAIDZ1", "Single parity - ZFS equivalent to RAID 5",
      3, 1, "Good", "Moderate", none⟩),
    ("raidz2", ⟨"RAIDZ2", "Double parity - ZFS equivalent to RAID 6",
      4, 2, "Good", "Moderate", none⟩),
    ("raidz3", ⟨"RAIDZ3", "Triple parity - Maximum fault tolerance",
      5, 3, "Good", "Moderate", none⟩),
    ("unraid-1", ⟨"Unraid (1 Parity)",
      "Flexible array with single parity drive - Individual drive access",
      2, 1, "Good", "Moderate", none⟩),
    ("unraid-2", ⟨"Unraid (2 Parity)",
      "Flexible array with dual parity drives - Individual drive access",
      3, 2, "Good", "Moderate", none⟩) ]

/-- The lookup `RAID_CONFIGS[raidType]` among the entries of the table; `none` is
JavaScript's `undefined`.  (Identifiers that name a member of `Object.prototype`, such as
`constructor`, which a JavaScript object also answers, are left out: no caller passes one.) -/
def RAID_CONFIGS (raidType : String) : Option RaidConfig :=
  RAID_CONFIGS_ENTRIES.lookup raidType

/-! ## Errors and results -/

/-- The errors the engine throws, one constructor per `throw` site (and one for the
`TypeError` of reading `config.minDrives` when `config` is `undefined`). -/
inductive CalcError where
  /-- The `TypeError` of `config.minDrives` on an identifier that is not in `RAID_CONFIGS`. -/
  | undefinedConfig
  /-- The error "`name` requires at least `minDrives` drives" of `calculateRAIDStorage`. -/
  | requiresAtLeast (name : String) (minDrives : ℕ)
  /-- The error "RAID 10 requires an even number of drives". -/
  | raid10RequiresEven
  /-- The error "SHR-`parityDisks` requires at least `parityDisks + 1` drives". -/
  | shrRequiresAtLeast (parityDisks : ℕ)
  /-- The error "Unraid with `parityCount` parity requires at least `parityCount + 1` drives". -/
  | unraidRequiresAtLeast (parityCount : ℕ)
  /-- The error "Total drives (`totalDrives`) must equal vdevs (`numVdevs`) × drives per vdev
  (`drivesPerVdev`)". -/
  | totalDrivesMismatch (totalDrives : ℕ) (numVdevs drivesPerVdev : ℤ)
deriving DecidableEq

/-- The record both calculators return. -/
structure CapacityResult where
  usableCapacity : JSNum
  rawCapacity : JSNum
  efficiency : JSNum
  wastedSpace : JSNum
deriving DecidableEq

/-! ## The calculators -/

/-- The function `convertTBtoTiB(tb)`. -/
def convertTBtoTiB (tb : JSNum) : JSNum :=
  let bytes := tb * TB_TO_BYTES_DECIMAL
  let tib := bytes / TB_TO_BYTES_BINARY
  tib

/-- One iteration of the `for` loop of `calculateSHR`, at index `i`, on the accumulator
`usableCapacity`. -/
def shrLoopBody (sorted : List JSNum) (numDrives parityDisks : ℕ)
    (usableCapacity : JSNum) (i : ℕ) : JSNum :=
  let currentSize := sorted.getD i nan
  let availableDrives : ℤ := (numDrives : ℤ) - i
  if availableDrives > parityDisks then
    if i = 0 then
      usableCapacity
        + currentSize * JSNum.ofInt (availableDrives - parityDisks) / JSNum.ofInt availableDrives
    else
      let difference := currentSize - sorted.getD (i - 1) nan
      usableCapacity
        + difference * JSNum.ofInt (availableDrives - parityDisks) / JSNum.ofInt availableDrives
  else
    usableCapacity

/-- The function `calculateSHR(drivesInTiB, parityDisks)`. -/
def calculateSHR (drivesInTiB : List JSNum) (parityDisks : ℕ) : Except CalcError JSNum :=
  let sorted := jsSort (fun a b => a - b) drivesInTiB
  let numDrives := sorted.length
  if numDrives < parityDisks + 1 then
    .error (.shrRequiresAtLeast parityDisks)
  else
    .ok ((List.range numDrives).foldl (shrLoopBody sorted numDrives parityDisks) (fin 0))

/-- The function `calculateUnraid(drivesInTiB, parityCount)`. -/
def calculateUnraid (drivesInTiB : List JSNum) (parityCount : ℕ) : Except CalcError JSNum :=
  let sorted := jsSort (fun a b => b - a) drivesInTiB
  let numDrives := sorted.length
  if numDrives < parityCount + 1 then
    .error (.unraidRequiresAtLeast parityCount)
  else
    let dataDrives := jsSlice sorted parityCount sorted.length
    .ok (reduceSum dataDrives)

/-- The `switch (raidType)` of `calculateRAIDStorage`: the usable capacity, or the error of
the `raid10` case and of the two helpers.  An identifier with no `case` leaves
`usableCapacity` at its initial `0`. -/
def usableCapacityOf (raidType : String) (numDrives : ℕ) (drivesInTiB : List JSNum)
    (rawCapacity : JSNum) : Except CalcError JSNum :=
  if raidType = "raid0" ∨ raidType = "zfs-stripe" then
    .ok rawCapacity
  else if raidType = "raid1" ∨ raidType = "zfs-mirror" then
    .ok (mathMin drivesInTiB)
  else if raidType = "raid5" ∨ raidType = "raidz1" then
    .ok (JSNum.ofInt ((numDrives : ℤ) - 1) * mathMin drivesInTiB)
  else if raidType = "raid6" ∨ raidType = "raidz2" then
    .ok (JSNum.ofInt ((numDrives : ℤ) - 2) * mathMin drivesInTiB)
  else if raidType = "raidz3" then
    .ok (JSNum.ofInt ((numDrives : ℤ) - 3) * mathMin drivesInTiB)
  else if raidType = "raid10" then
    if numDrives % 2 ≠ 0 then
      .error .raid10RequiresEven
    else
      .ok (JSNum.ofNat numDrives / fin 2 * mathMin drivesInTiB)
  else if raidType = "shr" then
    calculateSHR drivesInTiB 1
  else if raidType = "shr2" then
    calculateSHR drivesInTiB 2
  else if raidType = "unraid-1" then
    calculateUnraid drivesInTiB 1
  else if raidType = "unraid-2" then
    calculateUnraid drivesInTiB 2
  else
    .ok (fin 0)

/-- The function `calculateRAIDStorage(raidType, drives)`. -/
def calculateRAIDStorage (raidType : String) (drives : List JSNum) :
    Except CalcError CapacityResult :=
  let numDrives := drives.length
  match RAID_CONFIGS raidType with
  | none => .error .undefinedConfig
  | some config =>
    if numDrives < config.minDrives then
      .error (.requiresAtLeast config.name config.minDrives)
    else
      let drivesInTiB := drives.map (fun tb => convertTBtoTiB tb)
      let rawCapacity := reduceSum drivesInTiB
      match usableCapacityOf raidType numDrives drivesInTiB rawCapacity with
      | .error e => .error e
      | .ok usableCapacity =>
        .ok { usableCapacity := usableCapacity
              rawCapacity := rawCapacity
              efficiency := usableCapacity / rawCapacity
              wastedSpace := rawCapacity - usableCapacity }

/-- The `switch (raidType)` inside the loop of `calculateZFSVdevStorage`: the capacity of
one vdev whose smallest drive is `smallestInVdev`.  An identifier with no `case` leaves
`vdevCapacity` at its initial `0`. -/
def vdevCapacityOf (raidType : String) (drivesPerVdev : ℤ) (smallestInVdev : JSNum) : JSNum :=
  if raidType = "zfs-mirror" then
    smallestInVdev
  else if raidType = "raidz1" then
    JSNum.ofInt (drivesPerVdev - 1) * smallestInVdev
  else if raidType = "raidz2" then
    JSNum.ofInt (drivesPerVdev - 2) * smallestInVdev
  else if raidType = "raidz3" then
    JSNum.ofInt (drivesPerVdev - 3) * smallestInVdev
  else
    fin 0

/-- One iteration of the `for` loop of `calculateZFSVdevStorage`, at `vdevIndex`, on the
accumulator `totalUsableCapacity`. -/
def vdevLoopBody (raidType : String) (drivesInTiB : List JSNum) (drivesPerVdev : ℤ)
    (totalUsableCapacity : JSNum) (vdevIndex : ℕ) : JSNum :=
  let startIdx : ℤ := vdevIndex * drivesPerVdev
  let endIdx : ℤ := startIdx + drivesPerVdev
  let vdevDrives := jsSlice drivesInTiB startIdx endIdx
  let smallestInVdev := mathMin vdevDrives
  let vdevCapacity := vdevCapacityOf raidType drivesPerVdev smallestInVdev
  totalUsableCapacity + vdevCapacity

/-- The function `calculateZFSVdevStorage(raidType, allDrives, numVdevs, drivesPerVdev)`, for
integer `numVdevs` and `drivesPerVdev`.  The loop `for (vdevIndex = 0; vdevIndex < numVdevs;
vdevIndex++)` runs `numVdevs` times, and not at all when `numVdevs ≤ 0`. -/
def calculateZFSVdevStorage (raidType : String) (allDrives : List JSNum)
    (numVdevs drivesPerVdev : ℤ) : Except CalcError CapacityResult :=
  let totalDrives := allDrives.length
  if (totalDrives : ℤ) ≠ numVdevs * drivesPerVdev then
    .error (.totalDrivesMismatch totalDrives numVdevs drivesPerVdev)
  else
    let drivesInTiB := allDrives.map (fun tb => convertTBtoTiB tb)
    let rawCapacity := reduceSum drivesInTiB
    let totalUsableCapacity :=
      (List.range numVdevs.toNat).foldl (vdevLoopBody raidType drivesInTiB drivesPerVdev) (fin 0)
    .ok { usableCapacity := totalUsableCapacity
          rawCapacity := rawCapacity
          efficiency := totalUsableCapacity / rawCapacity
          wastedSpace := rawCapacity - totalUsableCapacity }

/-! ## Reference definitions

Rational-valued counterparts of the quantities the specification names.  They are what the
theorems below compare the calculators with. -/

/-- The rational that `convertTBtoTiB` returns on the rational `x`: `x * 10^12 / 2^40`. -/
def tib (x : ℚ) : ℚ := x * 1000000000000 / 1099511627776

/-- The least element of a non-empty list of rationals (`0` on the empty list). -/
def leastOf : List ℚ → ℚ
  | [] => 0
  | x :: xs => xs.foldl min x

/-- Hybrid tiered reference, one position: with `availableDrives = n - i`, position `i` of the
ascending list `s` contributes `(s[i] - s[i-1]) * (availableDrives - p) / availableDrives`
when `availableDrives > p` (`s[-1]` is taken as `0`), and nothing otherwise. -/
def tierContribution (s : List ℚ) (p i : ℕ) : ℚ :=
  let availableDrives : ℤ := (s.length : ℤ) - i
  let previousTierSize : ℚ := if i = 0 then 0 else s.getD (i - 1) 0
  if availableDrives > p then
    (s.getD i 0 - previousTierSize) * ((availableDrives - p : ℤ) : ℚ) / (availableDrives : ℚ)
  else 0

/-- Hybrid tiered reference: the sum of the tier contributions over all positions of the
ascending list `s`. -/
def hybridTieredReference (s : List ℚ) (p : ℕ) : ℚ :=
  ∑ i in Finset.range s.length, tierContribution s p i

/-- Grouped reference: the multiplier of the group minimum, `1` for `zfs-mirror` and `d - k`
for `raidz`-`k`. -/
def groupMultiplier (raidType : String) (d : ℕ) : ℚ :=
  if raidType = "zfs-mirror" then 1
  else if raidType = "raidz1" then (d : ℚ) - 1
  else if raidType = "raidz2" then (d : ℚ) - 2
  else if raidType = "raidz3" then (d : ℚ) - 3
  else 0

/-- Grouped reference: the `j`-th contiguous block of `d` drives,
`drives[j*d], ..., drives[(j+1)*d - 1]`, in input order. -/
def groupOf (drives : List ℚ) (d j : ℕ) : List ℚ :=
  (List.range d).map (fun i => drives.getD (j * d + i) 0)

/-- Grouped reference: the sum over the `g` groups of the multiplier times the least
converted size of the group. -/
def groupedReference (raidType : String) (drives : List ℚ) (g d : ℕ) : ℚ :=
  ∑ j in Finset.range g, groupMultiplier raidType d * leastOf ((groupOf drives d j).map tib)

/-! ## Arithmetic of `JSNum` on rationals -/

@[simp] theorem fin_add_fin (a b : ℚ) : fin a + fin b = fin (a + b) := rfl

@[simp] theorem fin_sub_fin (a b : ℚ) : fin a - fin b = fin (a - b) := by
  show JSNum.add (fin a) (JSNum.neg (fin b)) = fin (a - b)
  simp [JSNum.add, JSNum.neg, sub_eq_add_neg]

@[simp] theorem fin_mul_fin (a b : ℚ) : fin a * fin b = fin (a * b) := rfl

theorem fin_div_fin (a : ℚ) {b : ℚ} (hb : b ≠ 0) : fin a / fin b = fin (a / b) := by
  show JSNum.div (fin a) (fin b) = fin (a / b)
  simp [JSNum.div, hb]

theorem fin_div_fin_ite (a b : ℚ) :
    fin a / fin b
      = if b = 0 then (if a = 0 then nan else if 0 < a then posInf else negInf)
        else fin (a / b) := rfl

@[simp] theorem convertTBtoTiB_fin (x : ℚ) : convertTBtoTiB (fin x) = fin (tib x) := by
  simp only [convertTBtoTiB, TB_TO_BYTES_DECIMAL, TB_TO_BYTES_BINARY, fin_mul_fin, tib]
  rw [fin_div_fin _ (by norm_num)]

theorem tib_pos {x : ℚ} (hx : 0 < x) : 0 < tib x := by
  unfold tib; positivity

theorem tib_le_tib {x y : ℚ} (h : x ≤ y) : tib x ≤ tib y := by
  unfold tib
  apply div_le_div_of_nonneg_right _ (by norm_num)
  exact mul_le_mul_of_nonneg_right h (by norm_num)

theorem map_convert_fin (xs : List ℚ) :
    (xs.map fin).map (fun tb => convertTBtoTiB tb) = (xs.map tib).map fin := by
  simp [List.map_map, Function.comp_def]

theorem foldl_add_fin (xs : List ℚ) (a : ℚ) :
    (xs.map fin).foldl (fun sum size => sum + size) (fin a) = fin (a + xs.sum) := by
  induction xs generalizing a with
  | nil => simp
  | cons x xs ih => simp [ih, add_assoc]

theorem reduceSum_fin (xs : List ℚ) : reduceSum (xs.map fin) = fin xs.sum := by
  simp [reduceSum, foldl_add_fin]

theorem min_step_fin (a x : ℚ) :
    (if fin a = nan ∨ fin x = nan then nan else if JSNum.lt (fin x) (fin a) then fin x else fin a)
      = fin (min a x) := by
  by_cases h : x < a
  · simp [JSNum.lt, h, min_eq_right h.le]
  · simp [JSNum.lt, h, min_eq_left (not_lt.mp h)]

theorem min_step_posInf (x : ℚ) :
    (if posInf = nan ∨ fin x = nan then nan else if JSNum.lt (fin x) posInf then fin x else posInf)
      = fin x := by
  simp [JSNum.lt]

theorem foldl_min_fin (xs : List ℚ) (a : ℚ) :
    (xs.map fin).foldl
      (fun lowest x =>
        if lowest = nan ∨ x = nan then nan else if JSNum.lt x lowest then x else lowest)
      (fin a) = fin (xs.foldl min a) := by
  induction xs generalizing a with
  | nil => rfl
  | cons x xs ih =>
    simp only [List.map_cons, List.foldl_cons, min_step_fin, ih]

theorem mathMin_fin {xs : List ℚ} (h : xs ≠ []) : mathMin (xs.map fin) = fin (leastOf xs) := by
  cases xs with
  | nil => exact absurd rfl h
  | cons x xs =>
    simp only [mathMin, List.map_cons, List.foldl_cons, leastOf, min_step_posInf, foldl_min_fin]

theorem foldl_min_le_init (xs : List ℚ) (a : ℚ) : xs.foldl min a ≤ a := by
  induction xs generalizing a with
  | nil => simp
  | cons x xs ih => exact (ih (min a x)).trans (min_le_left a x)

theorem foldl_min_le_mem (xs : List ℚ) (a : ℚ) : ∀ y ∈ xs, xs.foldl min a ≤ y := by
  induction xs generalizing a with
  | nil => simp
  | cons x xs ih =>
    intro y hy
    rcases List.mem_cons.mp hy with rfl | hy
    · exact (foldl_min_le_init xs (min a y)).trans (min_le_right a y)
    · exact ih (min a x) y hy

theorem foldl_min_mem (xs : List ℚ) (a : ℚ) : xs.foldl min a = a ∨ xs.foldl min a ∈ xs := by
  induction xs generalizing a with
  | nil => simp
  | cons x xs ih =>
    simp only [List.foldl_cons, List.mem_cons]
    rcases ih (min a x) with h | h
    · rcases min_choice a x with h2 | h2
      · left; rw [h, h2]
      · right; left; rw [h, h2]
    · right; right; exact h

theorem leastOf_mem {xs : List ℚ} (h : xs ≠ []) : leastOf xs ∈ xs := by
  cases xs with
  | nil => exact absurd rfl h
  | cons x xs =>
    rcases foldl_min_mem xs x with h | h
    · simp [leastOf, h]
    · exact List.mem_cons_of_mem _ h

theorem leastOf_le {xs : List ℚ} : ∀ y ∈ xs, leastOf xs ≤ y := by
  cases xs with
  | nil => simp
  | cons x xs =>
    intro y hy
    rcases List.mem_cons.mp hy with rfl | hy
    · exact foldl_min_le_init xs y
    · exact foldl_min_le_mem xs x y hy

theorem jsSort_asc_fin (xs : List ℚ) :
    jsSort (fun a b => a - b) (xs.map fin) = (xs.insertionSort (· ≤ ·)).map fin := by
  unfold jsSort
  symm
  apply List.map_insertionSort
  intro a _ b _
  simp [JSNum.lt]

theorem jsSort_desc_fin (xs : List ℚ) :
    jsSort (fun a b => b - a) (xs.map fin) = (xs.insertionSort (· ≥ ·)).map fin := by
  unfold jsSort
  symm
  apply List.map_insertionSort
  intro a _ b _
  simp [JSNum.lt]

/-! ## The scheme table -/

theorem registered_mem {raidType : String} {cfg : RaidConfig}
    (h : RAID_CONFIGS raidType = some cfg) :
    (raidType, cfg) ∈ RAID_CONFIGS_ENTRIES := by
  unfold RAID_CONFIGS at h
  generalize RAID_CONFIGS_ENTRIES = l at h
  induction l with
  | nil => simp at h
  | cons e l ih =>
    obtain ⟨k, v⟩ := e
    by_cases hk : raidType = k
    · subst hk
      simp [List.lookup] at h
      simp [h]
    · have : (raidType == k) = false := by simpa using hk
      simp only [List.lookup, this] at h
      exact List.mem_cons_of_mem _ (ih h)

/-! ## Sums in `JSNum` -/

theorem JSNum.add_def (a b : JSNum) : a + b = JSNum.add a b := rfl

theorem JSNum.add_fin_zero (a : JSNum) : a + fin 0 = a := by
  cases a <;> simp [JSNum.add_def, JSNum.add]

theorem JSNum.fin_zero_add (a : JSNum) : fin 0 + a = a := by
  cases a <;> simp [JSNum.add_def, JSNum.add]

theorem JSNum.add_assoc_js (a b c : JSNum) : a + b + c = a + (b + c) := by
  cases a <;> cases b <;> cases c <;> simp [JSNum.add_def, JSNum.add, add_assoc]

theorem foldl_add_eq_sum (xs : List JSNum) (a : JSNum) :
    xs.foldl (fun sum size => sum + size) a = a + xs.sum := by
  induction xs generalizing a with
  | nil => exact (JSNum.add_fin_zero a).symm
  | cons x xs ih =>
    rw [List.foldl_cons, ih, List.sum_cons, JSNum.add_assoc_js]

theorem reduceSum_eq_sum (xs : List JSNum) : reduceSum xs = xs.sum := by
  rw [reduceSum, foldl_add_eq_sum, JSNum.fin_zero_add]

/-! ## The paths through the two calculators -/

theorem calculateRAIDStorage_undefined {raidType : String} (drives : List JSNum)
    (h : RAID_CONFIGS raidType = none) :
    calculateRAIDStorage raidType drives = .error .undefinedConfig := by
  simp [calculateRAIDStorage, h]

theorem calculateRAIDStorage_too_few {raidType : String} {cfg : RaidConfig}
    {drives : List JSNum} (h : RAID_CONFIGS raidType = some cfg)
    (hn : drives.length < cfg.minDrives) :
    calculateRAIDStorage raidType drives
      = .error (.requiresAtLeast cfg.name cfg.minDrives) := by
  simp [calculateRAIDStorage, h, hn]

theorem calculateRAIDStorage_error {raidType : String} {cfg : RaidConfig}
    {drives : List JSNum} {e : CalcError} (h : RAID_CONFIGS raidType = some cfg)
    (hn : cfg.minDrives ≤ drives.length)
    (hu : usableCapacityOf raidType drives.length (drives.map convertTBtoTiB)
      (reduceSum (drives.map convertTBtoTiB)) = .error e) :
    calculateRAIDStorage raidType drives = .error e := by
  simp only [calculateRAIDStorage, h, not_lt.mpr hn, if_false]
  rw [hu]

theorem calculateRAIDStorage_ok {raidType : String} {cfg : RaidConfig}
    {drives : List JSNum} {u : JSNum} (h : RAID_CONFIGS raidType = some cfg)
    (hn : cfg.minDrives ≤ drives.length)
    (hu : usableCapacityOf raidType drives.length (drives.map convertTBtoTiB)
      (reduceSum (drives.map convertTBtoTiB)) = .ok u) :
    calculateRAIDStorage raidType drives
      = .ok { usableCapacity := u
              rawCapacity := reduceSum (drives.map convertTBtoTiB)
              efficiency := u / reduceSum (drives.map convertTBtoTiB)
              wastedSpace := reduceSum (drives.map convertTBtoTiB) - u } := by
  simp only [calculateRAIDStorage, h, not_lt.mpr hn, if_false]
  rw [hu]

theorem calculateZFSVdevStorage_mismatch (raidType : String) {allDrives : List JSNum}
    {numVdevs drivesPerVdev : ℤ} (h : (allDrives.length : ℤ) ≠ numVdevs * drivesPerVdev) :
    calculateZFSVdevStorage raidType allDrives numVdevs drivesPerVdev
      = .error (.totalDrivesMismatch allDrives.length numVdevs drivesPerVdev) := by
  simp [calculateZFSVdevStorage, h]

theorem calculateZFSVdevStorage_ok (raidType : String) {allDrives : List JSNum}
    {numVdevs drivesPerVdev : ℤ} (h : (allDrives.length : ℤ) = numVdevs * drivesPerVdev) :
    calculateZFSVdevStorage raidType allDrives numVdevs drivesPerVdev
      = .ok { usableCapacity := (List.range numVdevs.toNat).foldl
                (vdevLoopBody raidType (allDrives.map convertTBtoTiB) drivesPerVdev) (fin 0)
              rawCapacity := reduceSum (allDrives.map convertTBtoTiB)
              efficiency := (List.range numVdevs.toNat).foldl
                (vdevLoopBody raidType (allDrives.map convertTBtoTiB) drivesPerVdev) (fin 0)
                  / reduceSum (allDrives.map convertTBtoTiB)
              wastedSpace := reduceSum (allDrives.map convertTBtoTiB)
                - (List.range numVdevs.toNat).foldl
                  (vdevLoopBody raidType (allDrives.map convertTBtoTiB) drivesPerVdev) (fin 0) } := by
  simp [calculateZFSVdevStorage, h]

theorem length_jsSort (compare : JSNum → JSNum → JSNum) (xs : List JSNum) :
    (jsSort compare xs).length = xs.length :=
  List.length_insertionSort _ xs

theorem calculateSHR_error_iff (ys : List JSNum) (p : ℕ) (e : CalcError) :
    calculateSHR ys p = .error e ↔ ys.length < p + 1 ∧ e = .shrRequiresAtLeast p := by
  unfold calculateSHR
  simp only [length_jsSort]
  split <;> simp_all [eq_comm]

theorem calculateUnraid_error_iff (ys : List JSNum) (c : ℕ) (e : CalcError) :
    calculateUnraid ys c = .error e ↔ ys.length < c + 1 ∧ e = .unraidRequiresAtLeast c := by
  unfold calculateUnraid
  simp only [length_jsSort]
  split <;> simp_all [eq_comm]

/-- Past the minimum-drives check of a registered scheme, the `switch` fails only in the
`raid10` case, on an odd drive count. -/
theorem usableCapacityOf_error_iff {raidType : String} {cfg : RaidConfig}
    (h : RAID_CONFIGS raidType = some cfg) (ys : List JSNum) (raw : JSNum)
    (hn : cfg.minDrives ≤ ys.length) (e : CalcError) :
    usableCapacityOf raidType ys.length ys raw = .error e
      ↔ raidType = "raid10" ∧ ys.length % 2 = 1 ∧ e = .raid10RequiresEven := by
  have hmem := registered_mem h
  simp only [RAID_CONFIGS_ENTRIES, List.mem_cons, Prod.mk.injEq, List.mem_singleton,
    List.not_mem_nil, or_false] at hmem
  rcases hmem with ⟨rfl, rfl⟩ | ⟨rfl, rfl⟩ | ⟨rfl, rfl⟩ | ⟨rfl, rfl⟩ | ⟨rfl, rfl⟩ | ⟨rfl, rfl⟩ |
    ⟨rfl, rfl⟩ | ⟨rfl, rfl⟩ | ⟨rfl, rfl⟩ | ⟨rfl, rfl⟩ | ⟨rfl, rfl⟩ | ⟨rfl, rfl⟩ | ⟨rfl, rfl⟩ |
    ⟨rfl, rfl⟩ <;>
  simp [usableCapacityOf, calculateSHR_error_iff, calculateUnraid_error_iff] at hn ⊢ <;>
  first | omega | (split <;> simp_all [eq_comm])

/-! ## The hybrid tiered calculator on rationals -/

theorem getD_map_fin (s : List ℚ) {i : ℕ} (hi : i < s.length) :
    (s.map fin).getD i nan = fin (s.getD i 0) := by
  simp [List.getD_eq_getElem?_getD, List.getElem?_map, List.getElem?_eq_getElem hi]

theorem shrLoopBody_fin (s : List ℚ) (p : ℕ) (acc : ℚ) {i : ℕ} (hi : i < s.length) :
    shrLoopBody (s.map fin) s.length p (fin acc) i = fin (acc + tierContribution s p i) := by
  have hne : (((s.length : ℤ) - (i : ℤ) : ℤ) : ℚ) ≠ 0 := by
    have : (0 : ℤ) < (s.length : ℤ) - (i : ℤ) := by omega
    exact_mod_cast this.ne'
  unfold shrLoopBody tierContribution
  by_cases hp : (s.length : ℤ) - (i : ℤ) > (p : ℤ)
  · by_cases h0 : i = 0
    · subst h0
      simp only [hp, if_true, getD_map_fin s hi, JSNum.ofInt, fin_mul_fin]
      rw [fin_div_fin _ hne, fin_add_fin]
      simp
    · have hi' : i - 1 < s.length := by omega
      simp only [hp, if_true, h0, if_false, getD_map_fin s hi, getD_map_fin s hi', JSNum.ofInt,
        fin_mul_fin, fin_sub_fin]
      rw [fin_div_fin _ hne, fin_add_fin]
  · simp [hp]

theorem shrLoop_fin (s : List ℚ) (p : ℕ) (acc : ℚ) (k : ℕ) (hk : k ≤ s.length) :
    (List.range k).foldl (shrLoopBody (s.map fin) s.length p) (fin acc)
      = fin (acc + ∑ i in Finset.range k, tierContribution s p i) := by
  induction k with
  | zero => simp
  | succ k ih =>
    rw [List.range_succ, List.foldl_append, ih (by omega), List.foldl_cons, List.foldl_nil,
      shrLoopBody_fin s p _ (by omega), Finset.sum_range_succ, add_assoc]

theorem calculateSHR_fin (drives : List ℚ) (p : ℕ) (hn : p + 1 ≤ drives.length) :
    calculateSHR (drives.map fin) p
      = .ok (fin (hybridTieredReference (drives.insertionSort (· ≤ ·)) p)) := by
  have hlen : (drives.insertionSort (· ≤ ·)).length = drives.length :=
    List.length_insertionSort _ _
  unfold calculateSHR
  simp only [jsSort_asc_fin, List.length_map, hlen, not_lt.mpr hn, if_false]
  have := shrLoop_fin (drives.insertionSort (· ≤ ·)) p 0 drives.length (by rw [hlen])
  rw [hlen] at this
  rw [this, hybridTieredReference, hlen, zero_add]

theorem sorted_eq_insertionSort {s drives : List ℚ} (hs : s.Sorted (· ≤ ·))
    (hperm : s.Perm drives) : drives.insertionSort (· ≤ ·) = s :=
  List.eq_of_perm_of_sorted ((List.perm_insertionSort _ drives).trans hperm.symm)
    (List.sorted_insertionSort _ drives) hs

theorem tib_le_tib_iff {x y : ℚ} : tib x ≤ tib y ↔ x ≤ y := by
  unfold tib
  constructor
  · intro h
    have h2 := (div_le_div_iff_of_pos_right (by norm_num : (0 : ℚ) < 1099511627776)).mp h
    exact le_of_mul_le_mul_right h2 (by norm_num)
  · intro h
    exact tib_le_tib h

theorem insertionSort_map_tib (drives : List ℚ) :
    (drives.map tib).insertionSort (· ≤ ·) = (drives.insertionSort (· ≤ ·)).map tib := by
  symm
  apply List.map_insertionSort
  intro a _ b _
  exact tib_le_tib_iff.symm

/-- The record `calculateRAIDStorage` returns on rational drive sizes, from the value of its
`switch`. -/
theorem calculateRAIDStorage_fin {raidType : String} {cfg : RaidConfig} {drives : List ℚ}
    {u : JSNum} (h : RAID_CONFIGS raidType = some cfg) (hn : cfg.minDrives ≤ drives.length)
    (hu : usableCapacityOf raidType drives.length ((drives.map tib).map fin)
      (fin (drives.map tib).sum) = .ok u) :
    calculateRAIDStorage raidType (drives.map fin)
      = .ok { usableCapacity := u
              rawCapacity := fin (drives.map tib).sum
              efficiency := u / fin (drives.map tib).sum
              wastedSpace := fin (drives.map tib).sum - u } := by
  have hmap : (drives.map fin).map convertTBtoTiB = (drives.map tib).map fin :=
    map_convert_fin drives
  have := @calculateRAIDStorage_ok raidType cfg (drives.map fin) u h (by simpa using hn)
    (by rw [hmap, reduceSum_fin, List.length_map]; exact hu)
  rw [this, hmap, reduceSum_fin]

theorem hybridTieredReference_scenario_D :
    hybridTieredReference [tib 4, tib 4, tib 8] 1 = tib 4 * 2 / 3 := by
  norm_num [hybridTieredReference, tierContribution, Finset.sum_range_succ, tib]

/-! ## The flexible-array calculator on rationals -/

theorem jsSlice_nat {α : Type} (xs : List α) (a b : ℕ) :
    jsSlice xs (a : ℤ) (b : ℤ) = (xs.drop a).take (b - a) := by
  unfold jsSlice
  have ha : ¬ ((a : ℤ) < 0) := by omega
  have hb : ¬ ((b : ℤ) < 0) := by omega
  simp only [ha, hb, if_false]
  rcases Nat.lt_or_ge xs.length a with h | h
  · rw [min_eq_right (by omega : (xs.length : ℤ) ≤ a)]
    simp [List.drop_eq_nil_of_le h.le]
  · rw [min_eq_left (by omega : (a : ℤ) ≤ xs.length), Int.toNat_natCast]
    rcases Nat.lt_or_ge xs.length b with hb2 | hb2
    · rw [min_eq_right (by omega : (xs.length : ℤ) ≤ b)]
      have h1 : ((xs.length : ℤ) - (a : ℤ)).toNat = xs.length - a := by omega
      rw [h1, List.take_of_length_le (by simp), List.take_of_length_le (by simp; omega)]
    · rw [min_eq_left (by omega : (b : ℤ) ≤ xs.length)]
      have h1 : ((b : ℤ) - (a : ℤ)).toNat = b - a := by omega
      rw [h1]

theorem calculateUnraid_fin (drives : List ℚ) (c : ℕ) (hn : c + 1 ≤ drives.length) :
    calculateUnraid (drives.map fin) c
      = .ok (fin ((drives.insertionSort (· ≥ ·)).drop c).sum) := by
  have hlen : (drives.insertionSort (· ≥ ·)).length = drives.length :=
    List.length_insertionSort _ _
  unfold calculateUnraid
  simp only [jsSort_desc_fin, List.length_map, hlen, not_lt.mpr hn, if_false]
  rw [jsSlice_nat, ← List.map_drop, ← List.map_take, reduceSum_fin,
    List.take_of_length_le (by simp [hlen])]

theorem insertionSort_desc_split {drives parity data : List ℚ}
    (hsplit : (parity ++ data).Perm drives) (hdom : ∀ x ∈ parity, ∀ y ∈ data, y ≤ x) :
    drives.insertionSort (· ≥ ·)
      = parity.insertionSort (· ≥ ·) ++ data.insertionSort (· ≥ ·) := by
  apply List.eq_of_perm_of_sorted _ (List.sorted_insertionSort _ drives)
  · rw [List.Sorted, List.pairwise_append]
    refine ⟨List.sorted_insertionSort _ parity, List.sorted_insertionSort _ data, ?_⟩
    intro x hx y hy
    exact hdom x ((List.mem_insertionSort _).mp hx) y ((List.mem_insertionSort _).mp hy)
  · exact (List.perm_insertionSort _ drives).trans
      (hsplit.symm.trans
        ((List.perm_insertionSort _ parity).symm.append (List.perm_insertionSort _ data).symm))

theorem insertionSort_desc_map_tib (drives : List ℚ) :
    (drives.map tib).insertionSort (· ≥ ·) = (drives.insertionSort (· ≥ ·)).map tib := by
  symm
  apply List.map_insertionSort
  intro a _ b _
  exact tib_le_tib_iff.symm
/-! ## The grouped calculator on rationals -/

theorem vdevCapacityOf_fin (raidType : String) (d : ℕ) (m : ℚ) :
    vdevCapacityOf raidType (d : ℤ) (fin m) = fin (groupMultiplier raidType d * m) := by
  unfold vdevCapacityOf groupMultiplier
  split
  · simp
  · split
    · simp [JSNum.ofInt]
    · split
      · simp [JSNum.ofInt]
      · split
        · simp [JSNum.ofInt]
        · simp

theorem vdevLoopBody_fin (raidType : String) (ys : List ℚ) {d : ℕ} (hd : 0 < d) (acc : ℚ)
    {j : ℕ} (hj : j * d + d ≤ ys.length) :
    vdevLoopBody raidType (ys.map fin) (d : ℤ) (fin acc) j
      = fin (acc + groupMultiplier raidType d * leastOf ((ys.drop (j * d)).take d)) := by
  have hne : (ys.drop (j * d)).take d ≠ [] := by
    intro h
    have := congrArg List.length h
    simp at this
    omega
  have h1 : (j : ℤ) * (d : ℤ) = ((j * d : ℕ) : ℤ) := by push_cast; ring
  have h2 : (j : ℤ) * (d : ℤ) + (d : ℤ) = ((j * d + d : ℕ) : ℤ) := by push_cast; ring
  unfold vdevLoopBody
  simp only
  rw [h2, h1, jsSlice_nat, Nat.add_sub_cancel_left, ← List.map_drop, ← List.map_take,
    mathMin_fin hne, vdevCapacityOf_fin, fin_add_fin]

theorem vdevLoop_fin (raidType : String) (ys : List ℚ) {d : ℕ} (hd : 0 < d) (acc : ℚ)
    (k : ℕ) (hk : k * d ≤ ys.length) :
    (List.range k).foldl (vdevLoopBody raidType (ys.map fin) (d : ℤ)) (fin acc)
      = fin (acc + ∑ j in Finset.range k,
          groupMultiplier raidType d * leastOf ((ys.drop (j * d)).take d)) := by
  induction k with
  | zero => simp
  | succ k ih =>
    have hk' : k * d + d ≤ ys.length := by rw [Nat.succ_mul] at hk; exact hk
    rw [List.range_succ, List.foldl_append, ih (by omega), List.foldl_cons, List.foldl_nil,
      vdevLoopBody_fin raidType ys hd _ hk', Finset.sum_range_succ, add_assoc]

theorem groupOf_eq (drives : List ℚ) {d j : ℕ} (hj : j * d + d ≤ drives.length) :
    groupOf drives d j = (drives.drop (j * d)).take d := by
  unfold groupOf
  apply List.ext_getElem
  · simp; omega
  · intro i h1 h2
    simp only [List.length_map, List.length_range] at h1
    have h3 : j * d + i < drives.length := by omega
    simp [List.getD_eq_getElem?_getD, List.getElem?_eq_getElem h3, List.getElem_take']

theorem calculateZFSVdevStorage_fin (raidType : String) (drives : List ℚ) {g d : ℕ}
    (hd : 0 < d) (hlen : drives.length = g * d) :
    calculateZFSVdevStorage raidType (drives.map fin) (g : ℤ) (d : ℤ)
      = .ok { usableCapacity := fin (groupedReference raidType drives g d)
              rawCapacity := fin (drives.map tib).sum
              efficiency := fin (groupedReference raidType drives g d) / fin (drives.map tib).sum
              wastedSpace := fin (drives.map tib).sum - fin (groupedReference raidType drives g d) } := by
  have hmap : (drives.map fin).map convertTBtoTiB = (drives.map tib).map fin :=
    map_convert_fin drives
  have hloop := vdevLoop_fin raidType (drives.map tib) hd 0 g (by simp [hlen])
  have hsum : ∑ j in Finset.range g,
        groupMultiplier raidType d * leastOf (((drives.map tib).drop (j * d)).take d)
      = groupedReference raidType drives g d := by
    unfold groupedReference
    apply Finset.sum_congr rfl
    intro j hj
    have hj' : j * d + d ≤ drives.length := by
      have : j + 1 ≤ g := Finset.mem_range.mp hj
      calc j * d + d = (j + 1) * d := by ring
        _ ≤ g * d := Nat.mul_le_mul_right d this
        _ = drives.length := hlen.symm
    rw [groupOf_eq drives hj', List.map_take, List.map_drop]
  rw [calculateZFSVdevStorage_ok raidType (by simp [hlen]), hmap, reduceSum_fin,
    Int.toNat_natCast, hloop, zero_add, hsum]
/-! ## Bounds on rationals -/

theorem length_mul_le_sum {ys : List ℚ} {m : ℚ} (h : ∀ y ∈ ys, m ≤ y) :
    (ys.length : ℚ) * m ≤ ys.sum := by
  have := List.card_nsmul_le_sum ys m h
  simpa [nsmul_eq_mul] using this

theorem leastOf_pos {ys : List ℚ} (hne : ys ≠ []) (hpos : ∀ y ∈ ys, 0 < y) :
    0 < leastOf ys :=
  hpos _ (leastOf_mem hne)

/-- Bounds for `m` times the least element, when `m` is at most the length. -/
theorem mul_leastOf_bounds {ys : List ℚ} (hne : ys ≠ []) (hpos : ∀ y ∈ ys, 0 < y) {m : ℚ}
    (hm : m ≤ ys.length) :
    m * leastOf ys ≤ ys.sum ∧ (0 < m → 0 < m * leastOf ys) := by
  have hl := leastOf_pos hne hpos
  refine ⟨?_, fun h => mul_pos h hl⟩
  calc m * leastOf ys ≤ (ys.length : ℚ) * leastOf ys :=
        mul_le_mul_of_nonneg_right hm hl.le
    _ ≤ ys.sum := length_mul_le_sum (fun y hy => leastOf_le y hy)

theorem sorted_getD_le {s : List ℚ} (hs : s.Sorted (· ≤ ·)) {i : ℕ} (h0 : i ≠ 0)
    (hi : i < s.length) : s.getD (i - 1) 0 ≤ s.getD i 0 := by
  have hi' : i - 1 < s.length := by omega
  have := List.pairwise_iff_getElem.mp hs (i - 1) i hi' hi (by omega)
  simpa [List.getD_eq_getElem?_getD, List.getElem?_eq_getElem hi,
    List.getElem?_eq_getElem hi'] using this

theorem getD_mem {s : List ℚ} {i : ℕ} (hi : i < s.length) : s.getD i 0 ∈ s := by
  simp [List.getD_eq_getElem?_getD, List.getElem?_eq_getElem hi]

/-- Each tier contributes between nothing and the height of the tier. -/
theorem tierContribution_bounds {s : List ℚ} (hs : s.Sorted (· ≤ ·)) (hpos : ∀ x ∈ s, 0 < x)
    (p : ℕ) {i : ℕ} (hi : i < s.length) :
    0 ≤ tierContribution s p i ∧
    tierContribution s p i ≤ s.getD i 0 - (if i = 0 then 0 else s.getD (i - 1) 0) := by
  have hdiff : 0 ≤ s.getD i 0 - (if i = 0 then 0 else s.getD (i - 1) 0) := by
    by_cases h0 : i = 0
    · simp only [h0, if_true, sub_zero]
      exact (hpos _ (getD_mem (h0 ▸ hi))).le
    · simp only [h0, if_false, sub_nonneg]
      exact sorted_getD_le hs h0 hi
  unfold tierContribution
  simp only
  by_cases hp : (s.length : ℤ) - (i : ℤ) > (p : ℤ)
  · simp only [hp, if_true]
    have ha : (0 : ℚ) < (((s.length : ℤ) - (i : ℤ) : ℤ) : ℚ) := by
      have : (0 : ℤ) < (s.length : ℤ) - (i : ℤ) := by omega
      exact_mod_cast this
    have hb : (0 : ℚ) ≤ (((s.length : ℤ) - (i : ℤ) - (p : ℤ) : ℤ) : ℚ) := by
      have : (0 : ℤ) ≤ (s.length : ℤ) - (i : ℤ) - (p : ℤ) := by omega
      exact_mod_cast this
    have hc : (((s.length : ℤ) - (i : ℤ) - (p : ℤ) : ℤ) : ℚ)
        ≤ (((s.length : ℤ) - (i : ℤ) : ℤ) : ℚ) := by
      have : (s.length : ℤ) - (i : ℤ) - (p : ℤ) ≤ (s.length : ℤ) - (i : ℤ) := by omega
      exact_mod_cast this
    constructor
    · exact div_nonneg (mul_nonneg hdiff hb) ha.le
    · rw [div_le_iff₀ ha]
      exact mul_le_mul_of_nonneg_left hc hdiff
  · simp only [hp, if_false]
    exact ⟨le_refl _, hdiff⟩

/-- The hybrid tiered reference lies in `(0, sum]` on a sorted list of positive sizes with
more drives than parity disks. -/
theorem hybridTieredReference_bounds {s : List ℚ} (hs : s.Sorted (· ≤ ·))
    (hpos : ∀ x ∈ s, 0 < x) {p : ℕ} (hn : p + 1 ≤ s.length) :
    0 < hybridTieredReference s p ∧ hybridTieredReference s p ≤ s.sum := by
  unfold hybridTieredReference
  constructor
  · have h0 : 0 < tierContribution s p 0 := by
      have hx : 0 < s.getD 0 0 := hpos _ (getD_mem (by omega))
      have hp : (s.length : ℤ) - ((0 : ℕ) : ℤ) > (p : ℤ) := by omega
      unfold tierContribution
      simp only [hp, if_true, sub_zero]
      have ha : (0 : ℚ) < (((s.length : ℤ) - ((0 : ℕ) : ℤ) : ℤ) : ℚ) := by
        have : (0 : ℤ) < (s.length : ℤ) - ((0 : ℕ) : ℤ) := by omega
        exact_mod_cast this
      have hb : (0 : ℚ) < (((s.length : ℤ) - ((0 : ℕ) : ℤ) - (p : ℤ) : ℤ) : ℚ) := by
        have : (0 : ℤ) < (s.length : ℤ) - ((0 : ℕ) : ℤ) - (p : ℤ) := by omega
        exact_mod_cast this
      exact div_pos (mul_pos hx hb) ha
    calc 0 < tierContribution s p 0 := h0
      _ ≤ ∑ i in Finset.range s.length, tierContribution s p i :=
        Finset.single_le_sum
          (fun i hi => (tierContribution_bounds hs hpos p (Finset.mem_range.mp hi)).1)
          (Finset.mem_range.mpr (by omega))
  · have hle : ∑ i in Finset.range s.length, tierContribution s p i
        ≤ ∑ i in Finset.range s.length,
            ((if i + 1 = 0 then 0 else s.getD (i + 1 - 1) 0)
              - (if i = 0 then 0 else s.getD (i - 1) 0)) := by
      apply Finset.sum_le_sum
      intro i hi
      simpa using (tierContribution_bounds hs hpos p (Finset.mem_range.mp hi)).2
    rw [Finset.sum_range_sub (fun i => if i = 0 then (0 : ℚ) else s.getD (i - 1) 0)] at hle
    have hlast : s.getD (s.length - 1) 0 ≤ s.sum :=
      List.single_le_sum (fun x hx => (hpos x hx).le) _ (getD_mem (by omega))
    have hne : s.length ≠ 0 := by omega
    simp only [hne, if_false, if_true, sub_zero] at hle
    exact hle.trans hlast

/-- The sum that is left after dropping `c` of more than `c` positive sizes lies in
`(0, sum]`. -/
theorem sum_drop_bounds {l : List ℚ} (hpos : ∀ x ∈ l, 0 < x) {c : ℕ} (hn : c + 1 ≤ l.length) :
    0 < (l.drop c).sum ∧ (l.drop c).sum ≤ l.sum := by
  constructor
  · apply List.sum_pos
    · intro x hx
      exact hpos x (List.mem_of_mem_drop hx)
    · intro h
      have := congrArg List.length h
      simp at this
      omega
  · have h1 := List.sum_take_add_sum_drop l c
    have h2 : 0 ≤ (l.take c).sum :=
      List.sum_nonneg (fun x hx => (hpos x (List.mem_of_mem_take hx)).le)
    linarith
/-! ## The `switch` of `calculateRAIDStorage` on positive rationals -/

theorem ne_nil_of_pos_length {ys : List ℚ} (h : 0 < ys.length) : ys ≠ [] := by
  intro h0
  rw [h0] at h
  exact absurd h (by decide)

theorem min_times_bounds {ys : List ℚ} (hpos : ∀ y ∈ ys, 0 < y) {m : ℚ} (h0 : 0 < m)
    (hm : m ≤ ys.length) :
    ∃ u : ℚ, fin m * mathMin (ys.map fin) = fin u ∧ 0 < u ∧ u ≤ ys.sum := by
  have hne : ys ≠ [] := by
    apply ne_nil_of_pos_length
    have : (0 : ℚ) < ys.length := lt_of_lt_of_le h0 hm
    exact_mod_cast this
  have hb := mul_leastOf_bounds hne hpos hm
  exact ⟨m * leastOf ys, by rw [mathMin_fin hne, fin_mul_fin], hb.2 h0, hb.1⟩

theorem usableCapacityOf_bounds {raidType : String} {cfg : RaidConfig}
    (h : RAID_CONFIGS raidType = some cfg) (ys : List ℚ) (hpos : ∀ y ∈ ys, 0 < y)
    (hn : cfg.minDrives ≤ ys.length) (heven : raidType = "raid10" → ys.length % 2 = 0) :
    ∃ u : ℚ, usableCapacityOf raidType ys.length (ys.map fin) (fin ys.sum) = .ok (fin u) ∧
      0 < u ∧ u ≤ ys.sum := by
  have hmem := registered_mem h
  simp only [RAID_CONFIGS_ENTRIES, List.mem_cons, Prod.mk.injEq, List.mem_singleton,
    List.not_mem_nil, or_false] at hmem
  have hmin : ∀ k : ℕ, k ≤ ys.length → 1 ≤ k → ∃ u : ℚ,
      mathMin (ys.map fin) = fin u ∧ 0 < u ∧ u ≤ ys.sum := by
    intro k hk h1
    obtain ⟨u, hu, hu0, hu1⟩ := min_times_bounds hpos (m := 1) one_pos
      (by exact_mod_cast (by omega : 1 ≤ ys.length))
    refine ⟨u, ?_, hu0, hu1⟩
    have hne : ys ≠ [] := ne_nil_of_pos_length (by omega)
    rw [mathMin_fin hne] at hu ⊢
    simpa using hu
  have hpar : ∀ k : ℕ, k + 1 ≤ ys.length → ∃ u : ℚ,
      JSNum.ofInt ((ys.length : ℤ) - (k : ℤ)) * mathMin (ys.map fin) = fin u ∧
        0 < u ∧ u ≤ ys.sum := by
    intro k hk
    have h0 : (0 : ℚ) < (((ys.length : ℤ) - (k : ℤ) : ℤ) : ℚ) := by
      have : (0 : ℤ) < (ys.length : ℤ) - (k : ℤ) := by omega
      exact_mod_cast this
    have h1 : (((ys.length : ℤ) - (k : ℤ) : ℤ) : ℚ) ≤ (ys.length : ℚ) := by
      have : (ys.length : ℤ) - (k : ℤ) ≤ (ys.length : ℤ) := by omega
      exact_mod_cast this
    exact min_times_bounds hpos h0 h1
  have hshr : ∀ p : ℕ, p + 1 ≤ ys.length → ∃ u : ℚ,
      calculateSHR (ys.map fin) p = .ok (fin u) ∧ 0 < u ∧ u ≤ ys.sum := by
    intro p hp
    have hb := hybridTieredReference_bounds (s := ys.insertionSort (· ≤ ·))
      (List.sorted_insertionSort _ ys)
      (fun x hx => hpos x ((List.mem_insertionSort _).mp hx))
      (p := p) (by rw [List.length_insertionSort]; exact hp)
    rw [(List.perm_insertionSort _ ys).sum_eq] at hb
    exact ⟨_, calculateSHR_fin ys p hp, hb.1, hb.2⟩
  have hun : ∀ c : ℕ, c + 1 ≤ ys.length → ∃ u : ℚ,
      calculateUnraid (ys.map fin) c = .ok (fin u) ∧ 0 < u ∧ u ≤ ys.sum := by
    intro c hc
    have hb := sum_drop_bounds (l := ys.insertionSort (· ≥ ·))
      (fun x hx => hpos x ((List.mem_insertionSort _).mp hx))
      (c := c) (by rw [List.length_insertionSort]; exact hc)
    rw [(List.perm_insertionSort _ ys).sum_eq] at hb
    exact ⟨_, calculateUnraid_fin ys c hc, hb.1, hb.2⟩
  have hsum : ∀ k : ℕ, k ≤ ys.length → 1 ≤ k → 0 < ys.sum := by
    intro k hk h1
    exact List.sum_pos _ hpos (ne_nil_of_pos_length (by omega))
  rcases hmem with ⟨rfl, rfl⟩ | ⟨rfl, rfl⟩ | ⟨rfl, rfl⟩ | ⟨rfl, rfl⟩ | ⟨rfl, rfl⟩ | ⟨rfl, rfl⟩ |
    ⟨rfl, rfl⟩ | ⟨rfl, rfl⟩ | ⟨rfl, rfl⟩ | ⟨rfl, rfl⟩ | ⟨rfl, rfl⟩ | ⟨rfl, rfl⟩ | ⟨rfl, rfl⟩ |
    ⟨rfl, rfl⟩
  · exact ⟨ys.sum, by simp [usableCapacityOf], hsum _ hn (by decide), le_refl _⟩
  · simpa [usableCapacityOf] using hmin _ hn (by decide)
  · have hn' : 3 ≤ ys.length := hn
    simpa [usableCapacityOf] using hpar 1 (by omega)
  · have hn' : 4 ≤ ys.length := hn
    simpa [usableCapacityOf] using hpar 2 (by omega)
  · have hn' : 4 ≤ ys.length := hn
    have he : ys.length % 2 = 0 := heven rfl
    have h0 : (0 : ℚ) < (ys.length : ℚ) / 2 := by
      have : (0 : ℚ) < ys.length := by exact_mod_cast (by omega : 0 < ys.length)
      positivity
    have h1 : (ys.length : ℚ) / 2 ≤ ys.length := by
      have : (0 : ℚ) ≤ ys.length := by positivity
      linarith
    obtain ⟨u, hu, hu0, hu1⟩ := min_times_bounds hpos h0 h1
    refine ⟨u, ?_, hu0, hu1⟩
    simp only [usableCapacityOf]
    simp [he, JSNum.ofNat, fin_div_fin_ite, hu]
  · simpa [usableCapacityOf] using hshr 1 hn
  · have hn' : 4 ≤ ys.length := hn
    simpa [usableCapacityOf] using hshr 2 (by omega)
  · exact ⟨ys.sum, by simp [usableCapacityOf], hsum _ hn (by decide), le_refl _⟩
  · simpa [usableCapacityOf] using hmin _ hn (by decide)
  · have hn' : 3 ≤ ys.length := hn
    simpa [usableCapacityOf] using hpar 1 (by omega)
  · have hn' : 4 ≤ ys.length := hn
    simpa [usableCapacityOf] using hpar 2 (by omega)
  · have hn' : 5 ≤ ys.length := hn
    simpa [usableCapacityOf] using hpar 3 (by omega)
  · simpa [usableCapacityOf] using hun 1 hn
  · simpa [usableCapacityOf] using hun 2 hn
/-! ## Bounds for the grouped calculator -/

theorem groupMultiplier_le (raidType : String) (d : ℕ) (hd : 0 < d) :
    groupMultiplier raidType d ≤ d := by
  have h1 : (1 : ℚ) ≤ d := by exact_mod_cast hd
  unfold groupMultiplier
  split
  · exact h1
  · split
    · linarith
    · split
      · linarith
      · split
        · linarith
        · linarith

theorem sum_blocks (ys : List ℚ) (d g : ℕ) :
    ∑ j in Finset.range g, ((ys.drop (j * d)).take d).sum = (ys.take (g * d)).sum := by
  induction g with
  | zero => simp
  | succ g ih =>
    rw [Finset.sum_range_succ, ih, Nat.succ_mul, List.take_add, List.sum_append]

theorem block_facts {ys : List ℚ} (hpos : ∀ y ∈ ys, 0 < y) {g d j : ℕ} (hd : 0 < d)
    (hlen : ys.length = g * d) (hj : j < g) :
    ((ys.drop (j * d)).take d).length = d ∧ (ys.drop (j * d)).take d ≠ [] ∧
    ∀ y ∈ (ys.drop (j * d)).take d, 0 < y := by
  have hj' : j * d + d ≤ ys.length := by
    calc j * d + d = (j + 1) * d := by ring
      _ ≤ g * d := Nat.mul_le_mul_right d hj
      _ = ys.length := hlen.symm
  have hl : ((ys.drop (j * d)).take d).length = d := by
    rw [List.length_take, List.length_drop]; omega
  refine ⟨hl, ?_, ?_⟩
  · intro h
    rw [h] at hl
    simp at hl
    omega
  · intro y hy
    exact hpos y (List.mem_of_mem_drop (List.mem_of_mem_take hy))

theorem groupedReference_eq_blocks (raidType : String) (drives : List ℚ) {g d : ℕ}
    (hlen : drives.length = g * d) :
    groupedReference raidType drives g d
      = ∑ j in Finset.range g,
          groupMultiplier raidType d * leastOf (((drives.map tib).drop (j * d)).take d) := by
  unfold groupedReference
  apply Finset.sum_congr rfl
  intro j hj
  have hj' : j * d + d ≤ drives.length := by
    have : j + 1 ≤ g := Finset.mem_range.mp hj
    calc j * d + d = (j + 1) * d := by ring
      _ ≤ g * d := Nat.mul_le_mul_right d this
      _ = drives.length := hlen.symm
  rw [groupOf_eq drives hj', List.map_take, List.map_drop]

/-- The grouped reference is at most the raw capacity, on positive sizes. -/
theorem groupedReference_le_sum (raidType : String) {drives : List ℚ}
    (hpos : ∀ x ∈ drives, 0 < x) {g d : ℕ} (hd : 0 < d) (hlen : drives.length = g * d) :
    groupedReference raidType drives g d ≤ (drives.map tib).sum := by
  have hpos' : ∀ y ∈ drives.map tib, 0 < y := by
    intro y hy
    obtain ⟨x, hx, rfl⟩ := List.mem_map.mp hy
    exact tib_pos (hpos x hx)
  have hlen' : (drives.map tib).length = g * d := by simpa using hlen
  rw [groupedReference_eq_blocks raidType drives hlen]
  calc ∑ j in Finset.range g,
          groupMultiplier raidType d * leastOf (((drives.map tib).drop (j * d)).take d)
      ≤ ∑ j in Finset.range g, (((drives.map tib).drop (j * d)).take d).sum := by
        apply Finset.sum_le_sum
        intro j hj
        obtain ⟨hl, hne, hp⟩ := block_facts hpos' hd hlen' (Finset.mem_range.mp hj)
        exact (mul_leastOf_bounds hne hp
          (by rw [hl]; exact groupMultiplier_le raidType d hd)).1
    _ = ((drives.map tib).take (g * d)).sum := sum_blocks _ d g
    _ = (drives.map tib).sum := by rw [List.take_of_length_le (by rw [hlen'])]

/-- The grouped reference is positive when every group has more drives than the multiplier
takes away, on positive sizes. -/
theorem groupedReference_pos (raidType : String) {drives : List ℚ}
    (hpos : ∀ x ∈ drives, 0 < x) {g d : ℕ} (hg : 0 < g) (hd : 0 < d)
    (hlen : drives.length = g * d) (hm : 0 < groupMultiplier raidType d) :
    0 < groupedReference raidType drives g d := by
  have hpos' : ∀ y ∈ drives.map tib, 0 < y := by
    intro y hy
    obtain ⟨x, hx, rfl⟩ := List.mem_map.mp hy
    exact tib_pos (hpos x hx)
  have hlen' : (drives.map tib).length = g * d := by simpa using hlen
  rw [groupedReference_eq_blocks raidType drives hlen]
  apply Finset.sum_pos
  · intro j hj
    obtain ⟨-, hne, hp⟩ := block_facts hpos' hd hlen' (Finset.mem_range.mp hj)
    exact mul_pos hm (leastOf_pos hne hp)
  · exact ⟨0, Finset.mem_range.mpr hg⟩

theorem sum_map_tib_pos {drives : List ℚ} (hpos : ∀ x ∈ drives, 0 < x)
    (hne : 0 < drives.length) : 0 < (drives.map tib).sum := by
  apply List.sum_pos
  · intro y hy
    obtain ⟨x, hx, rfl⟩ := List.mem_map.mp hy
    exact tib_pos (hpos x hx)
  · intro h
    rw [List.map_eq_nil_iff.mp h] at hne
    exact absurd hne (by decide)
/-! ## The records on positive rationals -/

/-- On positive sizes and a valid drive count, `calculateRAIDStorage` returns finite
figures with `0 < usable ≤ raw`. -/
theorem calculateRAIDStorage_pos {raidType : String} {cfg : RaidConfig} {drives : List ℚ}
    (h : RAID_CONFIGS raidType = some cfg) (hpos : ∀ x ∈ drives, 0 < x)
    (hn : cfg.minDrives ≤ drives.length) (heven : raidType = "raid10" → drives.length % 2 = 0) :
    ∃ u w : ℚ, calculateRAIDStorage raidType (drives.map fin)
        = .ok { usableCapacity := fin u, rawCapacity := fin w,
                efficiency := fin (u / w), wastedSpace := fin (w - u) } ∧
      0 < u ∧ u ≤ w ∧ w = (drives.map tib).sum := by
  have hpos' : ∀ y ∈ drives.map tib, 0 < y := by
    intro y hy
    obtain ⟨x, hx, rfl⟩ := List.mem_map.mp hy
    exact tib_pos (hpos x hx)
  obtain ⟨u, hu, hu0, hu1⟩ := usableCapacityOf_bounds h (drives.map tib) hpos'
    (by simpa using hn) (by simpa using heven)
  rw [List.length_map] at hu
  have hw : (drives.map tib).sum ≠ 0 := (lt_of_lt_of_le hu0 hu1).ne'
  refine ⟨u, (drives.map tib).sum, ?_, hu0, hu1, rfl⟩
  rw [calculateRAIDStorage_fin h hn hu, fin_div_fin _ hw, fin_sub_fin]

/-- On positive sizes and positive `g`, `d` with `g * d` drives, `calculateZFSVdevStorage`
returns finite figures with `usable ≤ raw`, where `usable` is the grouped reference. -/
theorem calculateZFSVdevStorage_pos (raidType : String) {drives : List ℚ}
    (hpos : ∀ x ∈ drives, 0 < x) {g d : ℕ} (hg : 0 < g) (hd : 0 < d)
    (hlen : drives.length = g * d) :
    ∃ u w : ℚ, calculateZFSVdevStorage raidType (drives.map fin) (g : ℤ) (d : ℤ)
        = .ok { usableCapacity := fin u, rawCapacity := fin w,
                efficiency := fin (u / w), wastedSpace := fin (w - u) } ∧
      u = groupedReference raidType drives g d ∧ u ≤ w ∧ 0 < w ∧
        w = (drives.map tib).sum := by
  have hw : 0 < (drives.map tib).sum :=
    sum_map_tib_pos hpos (by rw [hlen]; exact Nat.mul_pos hg hd)
  refine ⟨_, _, ?_, rfl, groupedReference_le_sum raidType hpos hd hlen, hw, rfl⟩
  rw [calculateZFSVdevStorage_fin raidType drives hd hlen, fin_div_fin _ hw.ne', fin_sub_fin]

theorem calculateSHR_of_sorted {drives s : List ℚ} {p : ℕ} (hn : p + 1 ≤ drives.length)
    (hs : s.Sorted (· ≤ ·)) (hperm : s.Perm drives) :
    calculateSHR (drives.map fin) p = .ok (fin (hybridTieredReference s p)) := by
  rw [calculateSHR_fin drives p hn, sorted_eq_insertionSort hs hperm]
/-- On positive sizes and a valid drive count, the efficiency `calculateRAIDStorage` returns
lies in `(0, 1]`. -/
theorem calculateRAIDStorage_efficiency_bounds {raidType : String} {cfg : RaidConfig}
    {drives : List ℚ} (h : RAID_CONFIGS raidType = some cfg) (hpos : ∀ x ∈ drives, 0 < x)
    (hn : cfg.minDrives ≤ drives.length) (heven : raidType = "raid10" → drives.length % 2 = 0) :
    ∃ (r : CapacityResult) (e : ℚ), calculateRAIDStorage raidType (drives.map fin) = .ok r ∧
      r.efficiency = fin e ∧ 0 < e ∧ e ≤ 1 := by
  obtain ⟨u, w, hr, hu0, hle, -⟩ := calculateRAIDStorage_pos h hpos hn heven
  have hw : 0 < w := lt_of_lt_of_le hu0 hle
  exact ⟨_, u / w, hr, rfl, div_pos hu0 hw, (div_le_one hw).mpr hle⟩

/-- On positive sizes, the efficiency `calculateZFSVdevStorage` returns lies in `(0, 1]` as
soon as the multiplier of the scheme is positive: any `d ≥ 1` for `zfs-mirror`, and `d > k`
for `raidz`-`k`. -/
theorem calculateZFSVdevStorage_efficiency_bounds (raidType : String) {drives : List ℚ}
    (hpos : ∀ x ∈ drives, 0 < x) {g d : ℕ} (hg : 0 < g) (hd : 0 < d)
    (hlen : drives.length = g * d) (hm : 0 < groupMultiplier raidType d) :
    ∃ (r : CapacityResult) (e : ℚ),
      calculateZFSVdevStorage raidType (drives.map fin) (g : ℤ) (d : ℤ) = .ok r ∧
      r.efficiency = fin e ∧ 0 < e ∧ e ≤ 1 := by
  obtain ⟨u, w, hr, hu, hle, hw, -⟩ := calculateZFSVdevStorage_pos raidType hpos hg hd hlen
  have hu0 : 0 < u := by rw [hu]; exact groupedReference_pos raidType hpos hg hd hlen hm
  exact ⟨_, u / w, hr, rfl, div_pos hu0 hw, (div_le_one hw).mpr hle⟩

/-! ## Worked examples -/

/-- Scenario C: `raid5` on five 4 TB drives. -/
theorem raid5_five_drives_of_four :
    calculateRAIDStorage "raid5" (List.map fin [4, 4, 4, 4, 4])
      = .ok { usableCapacity := fin (4 * tib 4)
              rawCapacity := fin (5 * tib 4)
              efficiency := fin (4 / 5)
              wastedSpace := fin (tib 4) } := by
  simp [calculateRAIDStorage, RAID_CONFIGS, RAID_CONFIGS_ENTRIES, List.lookup, usableCapacityOf,
    reduceSum, mathMin, JSNum.lt, JSNum.ofInt, fin_div_fin_ite, tib]
  norm_num

/-- The grouped calculator with `raidz1` on `[4, 8, 6, 12]` as two vdevs of two drives. -/
theorem raidz1_two_vdevs_of_two :
    calculateZFSVdevStorage "raidz1" (List.map fin [4, 8, 6, 12]) 2 2
      = .ok { usableCapacity := fin (tib 4 + tib 6)
              rawCapacity := fin (tib 30)
              efficiency := fin (1 / 3)
              wastedSpace := fin (tib 20) } := by
  simp [calculateZFSVdevStorage, vdevLoopBody, vdevCapacityOf, jsSlice, reduceSum, mathMin,
    JSNum.lt, JSNum.ofInt, tib, List.range, List.range.loop]
  norm_num [fin_div_fin_ite]
/-! ## The uniform schemes on rationals -/

theorem tib_min (a b : ℚ) : tib (min a b) = min (tib a) (tib b) :=
  Monotone.map_min (fun _ _ h => tib_le_tib h)

theorem foldl_min_map_tib (xs : List ℚ) (a : ℚ) :
    (xs.map tib).foldl min (tib a) = tib (xs.foldl min a) := by
  induction xs generalizing a with
  | nil => rfl
  | cons x xs ih => rw [List.map_cons, List.foldl_cons, List.foldl_cons, ← tib_min, ih]

/-- The least converted size is the converted least size. -/
theorem leastOf_map_tib (xs : List ℚ) : leastOf (xs.map tib) = tib (leastOf xs) := by
  cases xs with
  | nil => simp [leastOf, tib]
  | cons x xs => exact foldl_min_map_tib xs x

theorem leastOf_of_all_eq {drives : List ℚ} {s : ℚ} (h : ∀ x ∈ drives, x = s)
    (hne : drives ≠ []) : leastOf drives = s :=
  h _ (leastOf_mem hne)

theorem sum_map_tib_of_all_eq {drives : List ℚ} {s : ℚ} (h : ∀ x ∈ drives, x = s) :
    (drives.map tib).sum = (drives.length : ℚ) * tib s := by
  have := List.sum_eq_card_nsmul (drives.map tib) (tib s) (by
    intro y hy
    obtain ⟨x, hx, rfl⟩ := List.mem_map.mp hy
    rw [h x hx])
  simpa [nsmul_eq_mul] using this

theorem tib_ne_zero {s : ℚ} (hs : s ≠ 0) : tib s ≠ 0 := by
  unfold tib
  exact div_ne_zero (mul_ne_zero hs (by norm_num)) (by norm_num)

/-- The `switch` of `calculateRAIDStorage` in the fixed-ratio parity cases. -/
theorem usableCapacityOf_parity {raidType : String} {k : ℕ}
    (hk : ((raidType = "raid5" ∨ raidType = "raidz1") ∧ k = 1) ∨
      ((raidType = "raid6" ∨ raidType = "raidz2") ∧ k = 2) ∨ (raidType = "raidz3" ∧ k = 3))
    (n : ℕ) (ys : List JSNum) (raw : JSNum) :
    usableCapacityOf raidType n ys raw
      = .ok (JSNum.ofInt ((n : ℤ) - (k : ℤ)) * mathMin ys) := by
  rcases hk with ⟨rfl | rfl, rfl⟩ | ⟨rfl | rfl, rfl⟩ | ⟨rfl, rfl⟩ <;> simp [usableCapacityOf]

/-- The `switch` of `calculateRAIDStorage` in the mirroring cases. -/
theorem usableCapacityOf_mirror {raidType : String}
    (hs : raidType = "raid1" ∨ raidType = "zfs-mirror") (n : ℕ) (ys : List JSNum)
    (raw : JSNum) : usableCapacityOf raidType n ys raw = .ok (mathMin ys) := by
  rcases hs with rfl | rfl <;> simp [usableCapacityOf]

/-- The `switch` of `calculateRAIDStorage` in the striping cases. -/
theorem usableCapacityOf_stripe {raidType : String}
    (hs : raidType = "raid0" ∨ raidType = "zfs-stripe") (n : ℕ) (ys : List JSNum)
    (raw : JSNum) : usableCapacityOf raidType n ys raw = .ok raw := by
  rcases hs with rfl | rfl <;> simp [usableCapacityOf]

/-- The `switch` of `calculateRAIDStorage` in the `raid10` case, on an even drive count. -/
theorem usableCapacityOf_raid10 {n : ℕ} (hn : n % 2 = 0) (ys : List JSNum) (raw : JSNum) :
    usableCapacityOf "raid10" n ys raw = .ok (JSNum.ofNat n / fin 2 * mathMin ys) := by
  simp [usableCapacityOf, hn]

theorem registered_minDrives_pos {raidType : String} {cfg : RaidConfig}
    (h : RAID_CONFIGS raidType = some cfg) : 1 ≤ cfg.minDrives := by
  have hmem := registered_mem h
  simp only [RAID_CONFIGS_ENTRIES, List.mem_cons, Prod.mk.injEq, List.mem_singleton,
    List.not_mem_nil, or_false] at hmem
  rcases hmem with ⟨-, rfl⟩ | ⟨-, rfl⟩ | ⟨-, rfl⟩ | ⟨-, rfl⟩ | ⟨-, rfl⟩ | ⟨-, rfl⟩ |
    ⟨-, rfl⟩ | ⟨-, rfl⟩ | ⟨-, rfl⟩ | ⟨-, rfl⟩ | ⟨-, rfl⟩ | ⟨-, rfl⟩ | ⟨-, rfl⟩ |
    ⟨-, rfl⟩ <;> decide

theorem leastOf_map_tib_spec {drives : List ℚ} (hne : drives ≠ []) :
    leastOf (drives.map tib) ∈ drives.map tib ∧
      ∀ y ∈ drives.map tib, leastOf (drives.map tib) ≤ y :=
  ⟨leastOf_mem (by simpa using hne), fun y hy => leastOf_le y hy⟩
/-! ## One group -/

/-- The `switch` of `calculateRAIDStorage` and the `switch` of the vdev loop agree on the
four grouped schemes. -/
theorem usableCapacityOf_eq_vdevCapacityOf {raidType : String}
    (hs : raidType = "zfs-mirror" ∨ raidType = "raidz1" ∨ raidType = "raidz2" ∨
      raidType = "raidz3") (n : ℕ) (ys : List JSNum) (raw : JSNum) :
    usableCapacityOf raidType n ys raw = .ok (vdevCapacityOf raidType (n : ℤ) (mathMin ys)) := by
  rcases hs with rfl | rfl | rfl | rfl <;> simp [usableCapacityOf, vdevCapacityOf]

/-- The loop of `calculateZFSVdevStorage` for one vdev that holds all the drives. -/
theorem vdevLoop_single (raidType : String) (ys : List JSNum) :
    (List.range (1 : ℤ).toNat).foldl (vdevLoopBody raidType ys (ys.length : ℤ)) (fin 0)
      = vdevCapacityOf raidType (ys.length : ℤ) (mathMin ys) := by
  have h1 : List.range (1 : ℤ).toNat = [0] := rfl
  have hslice : jsSlice ys (((0 : ℕ) : ℤ) * (ys.length : ℤ))
      (((0 : ℕ) : ℤ) * (ys.length : ℤ) + (ys.length : ℤ)) = ys := by
    have e1 : ((0 : ℕ) : ℤ) * (ys.length : ℤ) = ((0 : ℕ) : ℤ) := by simp
    have e2 : ((0 : ℕ) : ℤ) + (ys.length : ℤ) = ((ys.length : ℕ) : ℤ) := by simp
    rw [e1, e2, jsSlice_nat]
    simp
  rw [h1, List.foldl_cons, List.foldl_nil, vdevLoopBody, hslice, JSNum.fin_zero_add]

/-! ## Claims -/

/-- C1. On positive drive sizes, `usableCapacity ≤ rawCapacity`: for `calculateRAIDStorage`
with a registered scheme and at least `minDrives` drives (an even number for `raid10`), and
for `calculateZFSVdevStorage` with `zfs-mirror`, `raidz1`, `raidz2` or `raidz3` and positive
`g`, `d` with `g * d` drives.  Both figures are finite. -/
theorem usable_le_raw :
    (∀ (raidType : String) (cfg : RaidConfig) (drives : List ℚ),
      RAID_CONFIGS raidType = some cfg → (∀ x ∈ drives, 0 < x) →
      cfg.minDrives ≤ drives.length → (raidType = "raid10" → drives.length % 2 = 0) →
      ∃ (r : CapacityResult) (u w : ℚ),
        calculateRAIDStorage raidType (drives.map fin) = .ok r ∧
        r.usableCapacity = fin u ∧ r.rawCapacity = fin w ∧ u ≤ w) ∧
    (∀ (raidType : String) (drives : List ℚ) (g d : ℕ),
      raidType ∈ ["zfs-mirror", "raidz1", "raidz2", "raidz3"] → (∀ x ∈ drives, 0 < x) →
      0 < g → 0 < d → g * d = drives.length →
      ∃ (r : CapacityResult) (u w : ℚ),
        calculateZFSVdevStorage raidType (drives.map fin) (g : ℤ) (d : ℤ) = .ok r ∧
        r.usableCapacity = fin u ∧ r.rawCapacity = fin w ∧ u ≤ w) := by
  constructor
  · intro raidType cfg drives h hpos hn heven
    obtain ⟨u, w, hr, -, hle, -⟩ := calculateRAIDStorage_pos h hpos hn heven
    exact ⟨_, u, w, hr, rfl, rfl, hle⟩
  · intro raidType drives g d _ hpos hg hd hlen
    obtain ⟨u, w, hr, -, hle, -, -⟩ := calculateZFSVdevStorage_pos raidType hpos hg hd hlen.symm
    exact ⟨_, u, w, hr, rfl, rfl, hle⟩

/-- C1 on instances: `shr` on the drives `[4, 4, 8]`, and `raidz1` on `[4, 8, 6, 12]` as two
groups of two. -/
theorem usable_le_raw_witness :
    (∃ (r : CapacityResult) (u w : ℚ),
      calculateRAIDStorage "shr" (List.map fin [4, 4, 8]) = .ok r ∧
      r.usableCapacity = fin u ∧ r.rawCapacity = fin w ∧ u ≤ w) ∧
    (∃ (r : CapacityResult) (u w : ℚ),
      calculateZFSVdevStorage "raidz1" (List.map fin [4, 8, 6, 12]) 2 2 = .ok r ∧
      r.usableCapacity = fin u ∧ r.rawCapacity = fin w ∧ u ≤ w) :=
  ⟨usable_le_raw.1 "shr" ⟨"Synology Hybrid RAID",
      "Flexible RAID with single disk fault tolerance", 2, 1, "Good", "Moderate", none⟩
      [4, 4, 8] rfl
      (by intro x hx; simp at hx; rcases hx with rfl | rfl <;> norm_num)
      (by decide) (by intro h; exact absurd h (by decide)),
    usable_le_raw.2 "raidz1" [4, 8, 6, 12] 2 2 (by simp)
      (by intro x hx; simp at hx; rcases hx with rfl | rfl | rfl | rfl <;> norm_num)
      (by decide) (by decide) rfl⟩

/-- C2 fails on `calculateZFSVdevStorage`: `raidz3` on six 12 TB drives as three vdevs of two
drives (six drives, at least the `minDrives = 5` of `raidz3`) returns a negative usable
capacity and the efficiency `-1/2`, outside `(0, 1]`. -/
theorem raidz3_three_vdevs_of_two_efficiency :
    (RAID_CONFIGS "raidz3").map (fun config => config.minDrives) = some 5 ∧
    calculateZFSVdevStorage "raidz3" (List.map fin [12, 12, 12, 12, 12, 12]) 3 2
      = .ok { usableCapacity := fin (-3 * tib 12)
              rawCapacity := fin (6 * tib 12)
              efficiency := fin (-1 / 2)
              wastedSpace := fin (9 * tib 12) } := by
  refine ⟨rfl, ?_⟩
  have h2 : List.range 2 = [0, 1] := rfl
  have hm : groupMultiplier "raidz3" 2 = -1 := by
    simp [groupMultiplier]
    norm_num
  have hG : groupedReference "raidz3" [12, 12, 12, 12, 12, 12] 3 2 = -3 * tib 12 := by
    norm_num [groupedReference, hm, groupOf, leastOf, Finset.sum_range_succ, h2]
    ring
  have hS : (List.map tib [12, 12, 12, 12, 12, 12]).sum = 6 * tib 12 := by
    norm_num [tib]
  have h := calculateZFSVdevStorage_fin "raidz3" [12, 12, 12, 12, 12, 12] (g := 3) (d := 2)
    (by decide) rfl
  rw [hG, hS, fin_div_fin _ (by norm_num [tib]), fin_sub_fin] at h
  rw [show (3 : ℤ) = ((3 : ℕ) : ℤ) from rfl, show (2 : ℤ) = ((2 : ℕ) : ℤ) from rfl, h]
  norm_num [tib]

/-- C3. Whatever the scheme and the group topology, a record returned by
`calculateRAIDStorage` or `calculateZFSVdevStorage` has `rawCapacity` equal to the sum of
`convertTBtoTiB(d)` over all input drives `d`, `wastedSpace = rawCapacity - usableCapacity`
and `efficiency = usableCapacity / rawCapacity`. -/
theorem result_fields :
    (∀ (raidType : String) (drives : List JSNum) (r : CapacityResult),
      calculateRAIDStorage raidType drives = .ok r →
        r.rawCapacity = (drives.map convertTBtoTiB).sum ∧
        r.wastedSpace = r.rawCapacity - r.usableCapacity ∧
        r.efficiency = r.usableCapacity / r.rawCapacity) ∧
    (∀ (raidType : String) (allDrives : List JSNum) (numVdevs drivesPerVdev : ℤ)
      (r : CapacityResult),
      calculateZFSVdevStorage raidType allDrives numVdevs drivesPerVdev = .ok r →
        r.rawCapacity = (allDrives.map convertTBtoTiB).sum ∧
        r.wastedSpace = r.rawCapacity - r.usableCapacity ∧
        r.efficiency = r.usableCapacity / r.rawCapacity) := by
  constructor
  · intro raidType drives r h
    cases hc : RAID_CONFIGS raidType with
    | none => rw [calculateRAIDStorage_undefined drives hc] at h; exact absurd h (by simp)
    | some cfg =>
      rcases Nat.lt_or_ge drives.length cfg.minDrives with hn | hn
      · rw [calculateRAIDStorage_too_few hc hn] at h; exact absurd h (by simp)
      · cases hu : usableCapacityOf raidType drives.length (drives.map convertTBtoTiB)
            (reduceSum (drives.map convertTBtoTiB)) with
        | error e => rw [calculateRAIDStorage_error hc hn hu] at h; exact absurd h (by simp)
        | ok u =>
          rw [calculateRAIDStorage_ok hc hn hu] at h
          injection h with h
          subst h
          exact ⟨reduceSum_eq_sum _, rfl, rfl⟩
  · intro raidType allDrives numVdevs drivesPerVdev r h
    by_cases hm : (allDrives.length : ℤ) = numVdevs * drivesPerVdev
    · rw [calculateZFSVdevStorage_ok raidType hm] at h
      injection h with h
      subst h
      exact ⟨reduceSum_eq_sum _, rfl, rfl⟩
    · rw [calculateZFSVdevStorage_mismatch raidType hm] at h
      exact absurd h (by simp)

/-- C3 on instances: Scenario C (`raid5` on five 4 TB drives), and `raidz1` on `[4, 8, 6, 12]`
as two vdevs of two drives. -/
theorem result_fields_witness :
    (fin (5 * tib 4) = (List.map convertTBtoTiB (List.map fin [4, 4, 4, 4, 4])).sum ∧
      fin (tib 4) = fin (5 * tib 4) - fin (4 * tib 4) ∧
      fin (4 / 5) = fin (4 * tib 4) / fin (5 * tib 4)) ∧
    (fin (tib 30) = (List.map convertTBtoTiB (List.map fin [4, 8, 6, 12])).sum ∧
      fin (tib 20) = fin (tib 30) - fin (tib 4 + tib 6) ∧
      fin (1 / 3) = fin (tib 4 + tib 6) / fin (tib 30)) :=
  ⟨result_fields.1 "raid5" (List.map fin [4, 4, 4, 4, 4]) _ raid5_five_drives_of_four,
    result_fields.2 "raidz1" (List.map fin [4, 8, 6, 12]) 2 2 _ raidz1_two_vdevs_of_two⟩

/-- C4. For a registered scheme, `calculateRAIDStorage` throws exactly when the drive count is
below `minDrives`, or the scheme is `raid10` and the drive count is odd.  The errors of
`calculateSHR` and `calculateUnraid` never surface, and each registered `minDrives` is at
least `faultTolerance + 1`.  For `raid5`, a drive list of length 2 is rejected. -/
theorem calculateRAIDStorage_fails_iff (raidType : String) (cfg : RaidConfig)
    (drives : List JSNum) (h : RAID_CONFIGS raidType = some cfg) :
    ((∃ e, calculateRAIDStorage raidType drives = .error e)
        ↔ (drives.length < cfg.minDrives ∨ (raidType = "raid10" ∧ drives.length % 2 = 1))) ∧
    (∀ p, calculateRAIDStorage raidType drives ≠ .error (.shrRequiresAtLeast p)) ∧
    (∀ c, calculateRAIDStorage raidType drives ≠ .error (.unraidRequiresAtLeast c)) ∧
    cfg.faultTolerance + 1 ≤ cfg.minDrives ∧
    (raidType = "raid5" → drives.length = 2 →
      calculateRAIDStorage raidType drives = .error (.requiresAtLeast "RAID 5" 3)) := by
  have hlen : (drives.map convertTBtoTiB).length = drives.length := List.length_map _ _
  have key : ∀ e, cfg.minDrives ≤ drives.length →
      (usableCapacityOf raidType drives.length (drives.map convertTBtoTiB)
          (reduceSum (drives.map convertTBtoTiB)) = .error e
        ↔ raidType = "raid10" ∧ drives.length % 2 = 1 ∧ e = .raid10RequiresEven) := by
    intro e hn
    have := usableCapacityOf_error_iff h (drives.map convertTBtoTiB)
      (reduceSum (drives.map convertTBtoTiB)) (by rw [hlen]; exact hn) e
    rwa [hlen] at this
  have hcases : ∀ e, calculateRAIDStorage raidType drives = .error e →
      (drives.length < cfg.minDrives ∧ e = .requiresAtLeast cfg.name cfg.minDrives) ∨
      (raidType = "raid10" ∧ drives.length % 2 = 1 ∧ e = .raid10RequiresEven) := by
    intro e he
    rcases Nat.lt_or_ge drives.length cfg.minDrives with hn | hn
    · rw [calculateRAIDStorage_too_few h hn] at he
      injection he with he
      exact Or.inl ⟨hn, he.symm⟩
    · right
      cases hu : usableCapacityOf raidType drives.length (drives.map convertTBtoTiB)
          (reduceSum (drives.map convertTBtoTiB)) with
      | error e2 =>
        rw [calculateRAIDStorage_error h hn hu] at he
        injection he with he
        subst he
        exact (key e2 hn).mp hu
      | ok u =>
        rw [calculateRAIDStorage_ok h hn hu] at he
        exact absurd he (by simp)
  refine ⟨⟨?_, ?_⟩, ?_, ?_, ?_, ?_⟩
  · rintro ⟨e, he⟩
    rcases hcases e he with ⟨hn, -⟩ | ⟨h10, hodd, -⟩
    · exact Or.inl hn
    · exact Or.inr ⟨h10, hodd⟩
  · intro hcond
    rcases Nat.lt_or_ge drives.length cfg.minDrives with hn | hn
    · exact ⟨_, calculateRAIDStorage_too_few h hn⟩
    · rcases hcond with hlt | ⟨h10, hodd⟩
      · omega
      · exact ⟨_, calculateRAIDStorage_error h hn ((key _ hn).mpr ⟨h10, hodd, rfl⟩)⟩
  · intro p he
    rcases hcases _ he with ⟨-, h2⟩ | ⟨-, -, h2⟩ <;> simp at h2
  · intro c he
    rcases hcases _ he with ⟨-, h2⟩ | ⟨-, -, h2⟩ <;> simp at h2
  · have hmem := registered_mem h
    simp only [RAID_CONFIGS_ENTRIES, List.mem_cons, Prod.mk.injEq, List.mem_singleton,
      List.not_mem_nil, or_false] at hmem
    rcases hmem with ⟨-, rfl⟩ | ⟨-, rfl⟩ | ⟨-, rfl⟩ | ⟨-, rfl⟩ | ⟨-, rfl⟩ | ⟨-, rfl⟩ |
      ⟨-, rfl⟩ | ⟨-, rfl⟩ | ⟨-, rfl⟩ | ⟨-, rfl⟩ | ⟨-, rfl⟩ | ⟨-, rfl⟩ | ⟨-, rfl⟩ |
      ⟨-, rfl⟩ <;> decide
  · intro h5 h2
    subst h5
    have hc : RAID_CONFIGS "raid5" = some ⟨"RAID 5",
        "Single parity - Good balance of performance and redundancy", 3, 1, "Good", "Moderate",
        none⟩ := rfl
    rw [calculateRAIDStorage_too_few hc (by rw [h2]; decide)]

/-- C4, on an instance: `raid5` with the two drives `4, 4` fails, and `raid10` with four
drives does not. -/
theorem calculateRAIDStorage_fails_iff_witness :
    RAID_CONFIGS "raid5" = some ⟨"RAID 5",
        "Single parity - Good balance of performance and redundancy", 3, 1, "Good", "Moderate",
        none⟩ ∧
    ((∃ e, calculateRAIDStorage "raid5" [fin 4, fin 4] = .error e)
        ↔ ([fin 4, fin 4].length < 3 ∨ ("raid5" = "raid10" ∧ [fin 4, fin 4].length % 2 = 1))) ∧
    calculateRAIDStorage "raid5" [fin 4, fin 4] = .error (.requiresAtLeast "RAID 5" 3) :=
  ⟨rfl, (calculateRAIDStorage_fails_iff "raid5" _ [fin 4, fin 4] rfl).1,
    (calculateRAIDStorage_fails_iff "raid5" _ [fin 4, fin 4] rfl).2.2.2.2 rfl rfl⟩

/-- C5, as stated, fails: `raid10` with three drives is rejected by the minimum-drives check
("RAID 10 requires at least 4 drives"), not by the even-count check. -/
theorem raid10_three_drives_rejected_by_minimum :
    calculateRAIDStorage "raid10" [fin 4, fin 4, fin 4]
        = .error (.requiresAtLeast "RAID 10" 4) ∧
    calculateRAIDStorage "raid10" [fin 4, fin 4, fin 4] ≠ .error .raid10RequiresEven := by
  have hc : RAID_CONFIGS "raid10" = some ⟨"RAID 10",
      "Mirrored stripes - Best performance with redundancy", 4, 1, "Excellent", "Good",
      some (1 / 2)⟩ := rfl
  have h : calculateRAIDStorage "raid10" [fin 4, fin 4, fin 4]
      = .error (.requiresAtLeast "RAID 10" 4) :=
    calculateRAIDStorage_too_few hc (by decide)
  exact ⟨h, by rw [h]; simp⟩

/-- C5, amended. With an odd number of drives, `raid10` fails with "RAID 10 requires an even
number of drives" when there are at least 4 drives, and with "RAID 10 requires at least 4
drives" when there are fewer (1 or 3); `raid5` with 2 drives fails with "RAID 5 requires at
least 3 drives". -/
theorem raid10_odd_drive_count (drives pair : List JSNum) (hodd : drives.length % 2 = 1)
    (hpair : pair.length = 2) :
    (4 ≤ drives.length → calculateRAIDStorage "raid10" drives = .error .raid10RequiresEven) ∧
    (drives.length < 4 →
      calculateRAIDStorage "raid10" drives = .error (.requiresAtLeast "RAID 10" 4)) ∧
    calculateRAIDStorage "raid5" pair = .error (.requiresAtLeast "RAID 5" 3) := by
  have hc : RAID_CONFIGS "raid10" = some ⟨"RAID 10",
      "Mirrored stripes - Best performance with redundancy", 4, 1, "Excellent", "Good",
      some (1 / 2)⟩ := rfl
  have hc5 : RAID_CONFIGS "raid5" = some ⟨"RAID 5",
      "Single parity - Good balance of performance and redundancy", 3, 1, "Good", "Moderate",
      none⟩ := rfl
  refine ⟨fun hn => ?_, fun hn => calculateRAIDStorage_too_few hc hn,
    calculateRAIDStorage_too_few hc5 (by rw [hpair]; decide)⟩
  apply calculateRAIDStorage_error hc hn
  simp [usableCapacityOf, hodd]

/-- C5 amended, on instances: five drives give the even-count error, two drives under `raid5`
the minimum-drives error. -/
theorem raid10_odd_drive_count_witness :
    [fin 4, fin 4, fin 4, fin 4, fin 4].length % 2 = 1 ∧ [fin 4, fin 4].length = 2 ∧
    calculateRAIDStorage "raid10" [fin 4, fin 4, fin 4, fin 4, fin 4]
      = .error .raid10RequiresEven ∧
    calculateRAIDStorage "raid5" [fin 4, fin 4] = .error (.requiresAtLeast "RAID 5" 3) :=
  ⟨rfl, rfl,
    (raid10_odd_drive_count [fin 4, fin 4, fin 4, fin 4, fin 4] [fin 4, fin 4] rfl rfl).1
      (by decide),
    (raid10_odd_drive_count [fin 4, fin 4, fin 4, fin 4, fin 4] [fin 4, fin 4] rfl rfl).2.2⟩

/-- C6. `calculateZFSVdevStorage` throws the total-drives error exactly when the drive count
differs from `numVdevs * drivesPerVdev`; otherwise it returns a record, so it throws nothing
else.  With 7 drives, 2 vdevs and 3 drives per vdev it throws. -/
theorem calculateZFSVdevStorage_fails_iff (raidType : String) (allDrives : List JSNum)
    (numVdevs drivesPerVdev : ℤ) :
    (calculateZFSVdevStorage raidType allDrives numVdevs drivesPerVdev
        = .error (.totalDrivesMismatch allDrives.length numVdevs drivesPerVdev)
      ↔ (allDrives.length : ℤ) ≠ numVdevs * drivesPerVdev) ∧
    ((∃ r, calculateZFSVdevStorage raidType allDrives numVdevs drivesPerVdev = .ok r)
      ↔ (allDrives.length : ℤ) = numVdevs * drivesPerVdev) ∧
    (∀ e, calculateZFSVdevStorage raidType allDrives numVdevs drivesPerVdev = .error e →
      e = .totalDrivesMismatch allDrives.length numVdevs drivesPerVdev) ∧
    calculateZFSVdevStorage raidType
        [fin 1, fin 2, fin 3, fin 4, fin 5, fin 6, fin 7] 2 3
      = .error (.totalDrivesMismatch 7 2 3) := by
  refine ⟨?_, ?_, ?_, calculateZFSVdevStorage_mismatch raidType (by decide)⟩
  · by_cases hm : (allDrives.length : ℤ) = numVdevs * drivesPerVdev
    · rw [calculateZFSVdevStorage_ok raidType hm]
      simp [hm]
    · rw [calculateZFSVdevStorage_mismatch raidType hm]
      simp [hm]
  · by_cases hm : (allDrives.length : ℤ) = numVdevs * drivesPerVdev
    · rw [calculateZFSVdevStorage_ok raidType hm]
      simp [hm]
    · rw [calculateZFSVdevStorage_mismatch raidType hm]
      simp [hm]
  · intro e he
    by_cases hm : (allDrives.length : ℤ) = numVdevs * drivesPerVdev
    · rw [calculateZFSVdevStorage_ok raidType hm] at he
      exact absurd he (by simp)
    · rw [calculateZFSVdevStorage_mismatch raidType hm] at he
      injection he with he
      exact he.symm

/-- C7. For `p` parity disks and `p + 1` or more drive sizes, `calculateSHR` returns the sum
over the positions `i` of the ascending-sorted list `s` with `n - i > p` of
`(s[i] - s[i-1]) * (n - i - p) / (n - i)`, with `s[-1] = 0`; at a position with
`n - i ≤ p` the loop leaves the running total unchanged.  `calculateRAIDStorage` calls it
with `p = 1` for `shr` and `p = 2` for `shr2`, on the converted sizes. -/
theorem calculateSHR_eq_reference (drives s : List ℚ) (p : ℕ) (hn : p + 1 ≤ drives.length)
    (hs : s.Sorted (· ≤ ·)) (hperm : s.Perm drives) :
    calculateSHR (drives.map fin) p = .ok (fin (hybridTieredReference s p)) ∧
    (∀ (sorted : List JSNum) (n i : ℕ) (usableCapacity : JSNum), n ≤ i + p →
      shrLoopBody sorted n p usableCapacity i = usableCapacity) ∧
    (2 ≤ drives.length → ∃ r, calculateRAIDStorage "shr" (drives.map fin) = .ok r ∧
      r.usableCapacity = fin (hybridTieredReference (s.map tib) 1)) ∧
    (4 ≤ drives.length → ∃ r, calculateRAIDStorage "shr2" (drives.map fin) = .ok r ∧
      r.usableCapacity = fin (hybridTieredReference (s.map tib) 2)) := by
  have hsort := sorted_eq_insertionSort hs hperm
  have hconv : ∀ q, q + 1 ≤ drives.length →
      calculateSHR ((drives.map tib).map fin) q
        = .ok (fin (hybridTieredReference (s.map tib) q)) := by
    intro q hq
    rw [calculateSHR_fin _ q (by simpa using hq), insertionSort_map_tib, hsort]
  refine ⟨by rw [calculateSHR_fin drives p hn, hsort], ?_, ?_, ?_⟩
  · intro sorted n i usableCapacity hi
    have : ¬ ((n : ℤ) - (i : ℤ) > (p : ℤ)) := by omega
    simp [shrLoopBody, this]
  · intro h2
    have hc : RAID_CONFIGS "shr" = some ⟨"Synology Hybrid RAID",
        "Flexible RAID with single disk fault tolerance", 2, 1, "Good", "Moderate", none⟩ := rfl
    exact ⟨_, calculateRAIDStorage_fin hc h2
      (by simp only [usableCapacityOf]; simpa using hconv 1 h2), rfl⟩
  · intro h4
    have hc : RAID_CONFIGS "shr2" = some ⟨"Synology Hybrid RAID 2",
        "Flexible RAID with dual disk fault tolerance", 4, 2, "Good", "Moderate", none⟩ := rfl
    exact ⟨_, calculateRAIDStorage_fin hc h4
      (by simp only [usableCapacityOf]; simpa using hconv 2 (by omega)), rfl⟩

/-- C7 on Scenario D: the drives `[4, 4, 8]` with one parity disk give
`convertTBtoTiB(4) * 2 / 3`. -/
theorem calculateSHR_eq_reference_witness :
    1 + 1 ≤ [(4 : ℚ), 4, 8].length ∧ [(4 : ℚ), 4, 8].Sorted (· ≤ ·) ∧
    [(4 : ℚ), 4, 8].Perm [4, 4, 8] ∧
    calculateSHR (List.map fin [4, 4, 8]) 1
      = .ok (fin (hybridTieredReference [4, 4, 8] 1)) ∧
    ∃ r, calculateRAIDStorage "shr" (List.map fin [4, 4, 8]) = .ok r ∧
      r.usableCapacity = convertTBtoTiB (fin 4) * fin 2 / fin 3 := by
  have hsorted : [(4 : ℚ), 4, 8].Sorted (· ≤ ·) := by norm_num [List.Sorted]
  have h := calculateSHR_eq_reference [4, 4, 8] [4, 4, 8] 1 (by decide) hsorted (List.Perm.refl _)
  obtain ⟨r, hr, hu⟩ := h.2.2.1 (by decide)
  refine ⟨by decide, hsorted, List.Perm.refl _, h.1, r, hr, ?_⟩
  rw [hu, convertTBtoTiB_fin, fin_mul_fin, fin_div_fin _ (by norm_num)]
  exact congrArg fin hybridTieredReference_scenario_D

/-- C8 fails on three equal 4 TB drives: `shr` returns `convertTBtoTiB(4) * 2 / 3` as usable
capacity, which is less than `(3 - 1) *` the least converted size, the usable capacity that
`raid5` returns for the same drives. -/
theorem shr_below_raid5_on_equal_drives :
    calculateRAIDStorage "shr" (List.map fin [4, 4, 4])
      = .ok { usableCapacity := fin (tib 4 * 2 / 3)
              rawCapacity := fin (3 * tib 4)
              efficiency := fin (2 / 9)
              wastedSpace := fin (3 * tib 4 - tib 4 * 2 / 3) } ∧
    calculateRAIDStorage "raid5" (List.map fin [4, 4, 4])
      = .ok { usableCapacity := fin ((3 - 1) * tib 4)
              rawCapacity := fin (3 * tib 4)
              efficiency := fin (2 / 3)
              wastedSpace := fin (tib 4) } ∧
    leastOf (List.map tib [4, 4, 4]) = tib 4 ∧
    tib 4 * 2 / 3 < (3 - 1) * tib 4 := by
  have hS : (List.map tib [4, 4, 4]).sum = 3 * tib 4 := by norm_num [tib]
  have hsorted : [tib 4, tib 4, tib 4].Sorted (· ≤ ·) := by simp [List.Sorted]
  have hH : hybridTieredReference [tib 4, tib 4, tib 4] 1 = tib 4 * 2 / 3 := by
    norm_num [hybridTieredReference, tierContribution, Finset.sum_range_succ, tib]
  have hshr : RAID_CONFIGS "shr" = some ⟨"Synology Hybrid RAID",
      "Flexible RAID with single disk fault tolerance", 2, 1, "Good", "Moderate", none⟩ := rfl
  have hraid5 : RAID_CONFIGS "raid5" = some ⟨"RAID 5",
      "Single parity - Good balance of performance and redundancy", 3, 1, "Good", "Moderate",
      none⟩ := rfl
  have hL : leastOf (List.map tib [4, 4, 4]) = tib 4 := by simp [leastOf]
  refine ⟨?_, ?_, hL, by norm_num [tib]⟩
  · have hu : usableCapacityOf "shr" [(4 : ℚ), 4, 4].length
        ((List.map tib [4, 4, 4]).map fin) (fin (List.map tib [4, 4, 4]).sum)
          = .ok (fin (tib 4 * 2 / 3)) := by
      have h1 := @calculateSHR_of_sorted (List.map tib [4, 4, 4]) [tib 4, tib 4, tib 4] 1
        (by decide) hsorted (List.Perm.refl _)
      rw [hH] at h1
      simpa [usableCapacityOf] using h1
    rw [calculateRAIDStorage_fin hshr (by decide) hu, hS, fin_div_fin _ (by norm_num [tib]),
      fin_sub_fin]
    norm_num [tib]
  · have hu : usableCapacityOf "raid5" [(4 : ℚ), 4, 4].length
        ((List.map tib [4, 4, 4]).map fin) (fin (List.map tib [4, 4, 4]).sum)
          = .ok (fin ((3 - 1) * tib 4)) := by
      have hne : List.map tib [4, 4, 4] ≠ [] := by simp
      have hmin := mathMin_fin hne
      rw [hL] at hmin
      have hcase : ∀ (ys : List JSNum) (raw : JSNum), usableCapacityOf "raid5" 3 ys raw
          = .ok (JSNum.ofInt (((3 : ℕ) : ℤ) - 1) * mathMin ys) := by
        intro ys raw
        simp [usableCapacityOf]
      rw [show [(4 : ℚ), 4, 4].length = 3 from rfl, hcase, hmin]
      simp only [JSNum.ofInt, fin_mul_fin]
      norm_num
    rw [calculateRAIDStorage_fin hraid5 (by decide) hu, hS, fin_div_fin _ (by norm_num [tib]),
      fin_sub_fin]
    norm_num [tib]

/-- C9. For `c` parity drives and `c + 1` or more drive sizes, split the drives in any way
into `c` parity drives and the other data drives so that every parity drive is at least as
large as every data drive: `calculateUnraid` returns the sum of the data drives, which is the
sum of all drives minus the sum of the parity drives.  The result does not depend on the
input order, and the `c` drives the code removes from its descending-sorted copy are such a
split.  `calculateRAIDStorage` calls it with `c = 1` for `unraid-1` and `c = 2` for
`unraid-2`, on the converted sizes. -/
theorem calculateUnraid_eq_sum_of_smallest (drives parity data : List ℚ) (c : ℕ)
    (hn : c + 1 ≤ drives.length) (hsplit : (parity ++ data).Perm drives)
    (hc : parity.length = c) (hdom : ∀ x ∈ parity, ∀ y ∈ data, y ≤ x) :
    calculateUnraid (drives.map fin) c = .ok (fin data.sum) ∧
    data.sum = drives.sum - parity.sum ∧
    data.length = drives.length - c ∧
    (∀ reordered : List ℚ, reordered.Perm drives →
      calculateUnraid (reordered.map fin) c = calculateUnraid (drives.map fin) c) ∧
    (∃ removed kept : List ℚ,
      jsSort (fun a b => b - a) (drives.map fin) = (removed ++ kept).map fin ∧
      jsSlice (jsSort (fun a b => b - a) (drives.map fin)) c drives.length = kept.map fin ∧
      removed.length = c ∧ (removed ++ kept).Perm drives ∧
      ∀ x ∈ removed, ∀ y ∈ kept, y ≤ x) ∧
    (c = 1 → ∃ r, calculateRAIDStorage "unraid-1" (drives.map fin) = .ok r ∧
      r.usableCapacity = fin (data.map tib).sum) ∧
    (c = 2 → ∃ r, calculateRAIDStorage "unraid-2" (drives.map fin) = .ok r ∧
      r.usableCapacity = fin (data.map tib).sum) := by
  have hlenPD : parity.length + data.length = drives.length := by
    rw [← List.length_append]; exact hsplit.length_eq
  have hmain : ∀ (ds ps dt : List ℚ), c + 1 ≤ ds.length → (ps ++ dt).Perm ds →
      ps.length = c → (∀ x ∈ ps, ∀ y ∈ dt, y ≤ x) →
      calculateUnraid (ds.map fin) c = .ok (fin dt.sum) := by
    intro ds ps dt hn' hsplit' hc' hdom'
    rw [calculateUnraid_fin ds c hn', insertionSort_desc_split hsplit' hdom',
      List.drop_append_of_le_length (by rw [List.length_insertionSort, hc']),
      List.drop_of_length_le (by rw [List.length_insertionSort, hc']), List.nil_append,
      (List.perm_insertionSort _ dt).sum_eq]
  have hconv : calculateUnraid ((drives.map tib).map fin) c = .ok (fin (data.map tib).sum) := by
    apply hmain (drives.map tib) (parity.map tib) (data.map tib) (by simpa using hn)
    · rw [← List.map_append]; exact hsplit.map tib
    · simpa using hc
    · intro x hx y hy
      obtain ⟨x', hx', rfl⟩ := List.mem_map.mp hx
      obtain ⟨y', hy', rfl⟩ := List.mem_map.mp hy
      exact tib_le_tib (hdom x' hx' y' hy')
  refine ⟨hmain drives parity data hn hsplit hc hdom, ?_, by omega, ?_, ?_, ?_, ?_⟩
  · rw [← hsplit.sum_eq, List.sum_append]; ring
  · intro reordered hre
    rw [hmain reordered parity data (by rw [hre.length_eq]; exact hn) (hsplit.trans hre.symm)
      hc hdom, hmain drives parity data hn hsplit hc hdom]
  · have hlen : (drives.insertionSort (· ≥ ·)).length = drives.length :=
      List.length_insertionSort _ _
    have hsorted := List.sorted_insertionSort (· ≥ ·) drives
    rw [← List.take_append_drop c (drives.insertionSort (· ≥ ·)), List.Sorted,
      List.pairwise_append] at hsorted
    refine ⟨(drives.insertionSort (· ≥ ·)).take c, (drives.insertionSort (· ≥ ·)).drop c,
      ?_, ?_, ?_, ?_, hsorted.2.2⟩
    · rw [jsSort_desc_fin, List.take_append_drop]
    · rw [jsSort_desc_fin, jsSlice_nat, ← List.map_drop, ← List.map_take,
        List.take_of_length_le (by simp [hlen])]
    · rw [List.length_take, hlen]; omega
    · rw [List.take_append_drop]; exact List.perm_insertionSort _ drives
  · intro h1
    subst h1
    have hcfg : RAID_CONFIGS "unraid-1" = some ⟨"Unraid (1 Parity)",
        "Flexible array with single parity drive - Individual drive access", 2, 1, "Good",
        "Moderate", none⟩ := rfl
    exact ⟨_, calculateRAIDStorage_fin hcfg hn
      (by simp only [usableCapacityOf]; simpa using hconv), rfl⟩
  · intro h2
    subst h2
    have hcfg : RAID_CONFIGS "unraid-2" = some ⟨"Unraid (2 Parity)",
        "Flexible array with dual parity drives - Individual drive access", 3, 2, "Good",
        "Moderate", none⟩ := rfl
    exact ⟨_, calculateRAIDStorage_fin hcfg hn
      (by simp only [usableCapacityOf]; simpa using hconv), rfl⟩

/-- C9 on Scenario E: the drives `[2, 4, 6]` with one parity drive give
`convertTBtoTiB(4) + convertTBtoTiB(2)`; the parity drive is the `6`. -/
theorem calculateUnraid_eq_sum_of_smallest_witness :
    1 + 1 ≤ [(2 : ℚ), 4, 6].length ∧ ([(6 : ℚ)] ++ [2, 4]).Perm [2, 4, 6] ∧
    [(6 : ℚ)].length = 1 ∧ (∀ x ∈ [(6 : ℚ)], ∀ y ∈ [(2 : ℚ), 4], y ≤ x) ∧
    calculateUnraid (List.map fin [2, 4, 6]) 1 = .ok (fin (2 + 4)) ∧
    ∃ r, calculateRAIDStorage "unraid-1" (List.map fin [2, 4, 6]) = .ok r ∧
      r.usableCapacity = convertTBtoTiB (fin 4) + convertTBtoTiB (fin 2) := by
  have hperm : ([(6 : ℚ)] ++ [2, 4]).Perm [2, 4, 6] :=
    (List.Perm.swap 2 6 [4]).trans ((List.Perm.swap 4 6 []).cons 2)
  have hdom : ∀ x ∈ [(6 : ℚ)], ∀ y ∈ [(2 : ℚ), 4], y ≤ x := by
    intro x hx y hy
    simp only [List.mem_singleton] at hx
    simp only [List.mem_cons, List.mem_singleton, List.not_mem_nil, or_false] at hy
    subst hx
    rcases hy with rfl | rfl <;> norm_num
  have h := calculateUnraid_eq_sum_of_smallest [2, 4, 6] [6] [2, 4] 1 (by decide) hperm rfl hdom
  obtain ⟨r, hr, hu⟩ := h.2.2.2.2.2.1 rfl
  refine ⟨by decide, hperm, rfl, hdom, ?_, r, hr, ?_⟩
  · rw [h.1]; norm_num
  · rw [hu, convertTBtoTiB_fin, convertTBtoTiB_fin, fin_add_fin]
    congr 1
    simp [add_comm]

/-- C10. For positive `d` and a drive list of length `g * d`, `calculateZFSVdevStorage` returns
as `usableCapacity` the sum over the groups `j = 0, ..., g - 1` of `m` times the least
converted size among `drives[j*d], ..., drives[(j+1)*d - 1]`, with `m = 1` for `zfs-mirror`
and `m = d - k` for `raidz`-`k`: the groups are the contiguous blocks of the input, in input
order. -/
theorem calculateZFSVdevStorage_eq_reference (raidType : String) (drives : List ℚ) (g d : ℕ)
    (hd : 0 < d) (hlen : drives.length = g * d) :
    (∃ r, calculateZFSVdevStorage raidType (drives.map fin) (g : ℤ) (d : ℤ) = .ok r ∧
      r.usableCapacity = fin (groupedReference raidType drives g d)) ∧
    groupMultiplier "zfs-mirror" d = 1 ∧
    groupMultiplier "raidz1" d = (d : ℚ) - 1 ∧
    groupMultiplier "raidz2" d = (d : ℚ) - 2 ∧
    groupMultiplier "raidz3" d = (d : ℚ) - 3 ∧
    (∀ j, j < g → groupOf drives d j = (drives.drop (j * d)).take d) :=
  ⟨⟨_, calculateZFSVdevStorage_fin raidType drives hd hlen, rfl⟩,
    by simp [groupMultiplier], by simp [groupMultiplier], by simp [groupMultiplier],
    by simp [groupMultiplier],
    fun j hj => groupOf_eq drives (by
      calc j * d + d = (j + 1) * d := by ring
        _ ≤ g * d := Nat.mul_le_mul_right d hj
        _ = drives.length := hlen.symm)⟩

theorem groupedReference_mirror_example :
    groupedReference "zfs-mirror" [1, 10, 1, 10] 2 2 = tib 1 + tib 1 := by
  have h2 : List.range 2 = [0, 1] := rfl
  norm_num [groupedReference, groupMultiplier, groupOf, leastOf, Finset.sum_range_succ, h2, tib]

/-- C10 on an instance: the drives `[1, 10, 1, 10]` as two mirrors of two drives give
`convertTBtoTiB(1) + convertTBtoTiB(1)`: the groups are `[1, 10]` and `[1, 10]`, not the
sorted `[1, 1]` and `[10, 10]`. -/
theorem calculateZFSVdevStorage_eq_reference_witness :
    0 < 2 ∧ [(1 : ℚ), 10, 1, 10].length = 2 * 2 ∧
    ∃ r, calculateZFSVdevStorage "zfs-mirror" (List.map fin [1, 10, 1, 10]) 2 2 = .ok r ∧
      r.usableCapacity = convertTBtoTiB (fin 1) + convertTBtoTiB (fin 1) := by
  obtain ⟨r, hr, hu⟩ :=
    (calculateZFSVdevStorage_eq_reference "zfs-mirror" [1, 10, 1, 10] 2 2 (by decide) rfl).1
  refine ⟨by decide, rfl, r, hr, ?_⟩
  rw [hu, convertTBtoTiB_fin, fin_add_fin, groupedReference_mirror_example]

/-- C11. For `k = 1` (`raid5`, `raidz1`), `k = 2` (`raid6`, `raidz2`) and `k = 3` (`raidz3`)
and at least `minDrives` drive sizes, `calculateRAIDStorage` returns
`usableCapacity = (n - k) *` the least converted size.  When all `n` drives have the same size
`s`, that is `(n - k) * convertTBtoTiB(s)`, and the efficiency is `(n - k) / n` (for `s ≠ 0`,
so that the raw capacity is not zero). -/
theorem fixed_ratio_parity (raidType : String) (k : ℕ) (cfg : RaidConfig) (drives : List ℚ)
    (hk : ((raidType = "raid5" ∨ raidType = "raidz1") ∧ k = 1) ∨
      ((raidType = "raid6" ∨ raidType = "raidz2") ∧ k = 2) ∨ (raidType = "raidz3" ∧ k = 3))
    (hcfg : RAID_CONFIGS raidType = some cfg) (hn : cfg.minDrives ≤ drives.length) :
    ∃ r, calculateRAIDStorage raidType (drives.map fin) = .ok r ∧
      r.usableCapacity = fin (((drives.length : ℚ) - (k : ℚ)) * leastOf (drives.map tib)) ∧
      leastOf (drives.map tib) ∈ drives.map tib ∧
      (∀ y ∈ drives.map tib, leastOf (drives.map tib) ≤ y) ∧
      ∀ s : ℚ, (∀ x ∈ drives, x = s) →
        r.usableCapacity
          = JSNum.ofInt ((drives.length : ℤ) - (k : ℤ)) * convertTBtoTiB (fin s) ∧
        (s ≠ 0 →
          r.efficiency = fin (((drives.length : ℚ) - (k : ℚ)) / (drives.length : ℚ))) := by
  have hpos : 1 ≤ drives.length := le_trans (registered_minDrives_pos hcfg) hn
  have hne : drives ≠ [] := ne_nil_of_pos_length hpos
  have hne' : drives.map tib ≠ [] := by simpa using hne
  have hspec := leastOf_map_tib_spec hne
  have hu : usableCapacityOf raidType drives.length ((drives.map tib).map fin)
      (fin (drives.map tib).sum)
        = .ok (fin (((drives.length : ℚ) - (k : ℚ)) * leastOf (drives.map tib))) := by
    rw [usableCapacityOf_parity hk, mathMin_fin hne', JSNum.ofInt, fin_mul_fin]
    push_cast
    rfl
  refine ⟨_, calculateRAIDStorage_fin hcfg hn hu, rfl, hspec.1, hspec.2, ?_⟩
  intro s hs
  have hl : leastOf (drives.map tib) = tib s := by
    rw [leastOf_map_tib, leastOf_of_all_eq hs hne]
  have hsum := sum_map_tib_of_all_eq hs
  refine ⟨?_, ?_⟩
  · simp only [hl, JSNum.ofInt, convertTBtoTiB_fin, fin_mul_fin]
    push_cast
    rfl
  · intro hs0
    have hraw : (drives.length : ℚ) * tib s ≠ 0 :=
      mul_ne_zero (by exact_mod_cast (by omega : drives.length ≠ 0)) (tib_ne_zero hs0)
    simp only [hl, hsum]
    rw [fin_div_fin _ hraw]
    congr 1
    have ht := tib_ne_zero hs0
    have hlen : (drives.length : ℚ) ≠ 0 := by exact_mod_cast (by omega : drives.length ≠ 0)
    field_simp
    ring

/-- C11 on Scenario C: `raid5` on five 4 TB drives gives `4 * convertTBtoTiB(4)` usable and
the efficiency `4/5`. -/
theorem fixed_ratio_parity_witness :
    (("raid5" = "raid5" ∨ "raid5" = "raidz1") ∧ 1 = 1) ∧
    RAID_CONFIGS "raid5" = some ⟨"RAID 5",
      "Single parity - Good balance of performance and redundancy", 3, 1, "Good", "Moderate",
      none⟩ ∧
    3 ≤ [(4 : ℚ), 4, 4, 4, 4].length ∧
    ∃ r, calculateRAIDStorage "raid5" (List.map fin [4, 4, 4, 4, 4]) = .ok r ∧
      r.usableCapacity = fin 4 * convertTBtoTiB (fin 4) ∧ r.efficiency = fin (4 / 5) := by
  obtain ⟨r, hr, -, -, -, heq⟩ := fixed_ratio_parity "raid5" 1 _ [4, 4, 4, 4, 4]
    (Or.inl ⟨Or.inl rfl, rfl⟩) rfl (by decide)
  obtain ⟨hu, he⟩ := heq 4 (by intro x hx; simpa using hx)
  refine ⟨⟨Or.inl rfl, rfl⟩, rfl, by decide, r, hr, ?_, ?_⟩
  · rw [hu]
    norm_num [JSNum.ofInt]
  · rw [he (by norm_num)]
    norm_num

/-- C12, as stated, fails: `raid1` on three equal 4 TB drives returns the efficiency `1/3`,
while the `efficiency` of its descriptor is `1/2`. -/
theorem raid1_three_equal_drives_efficiency :
    (RAID_CONFIGS "raid1").bind (fun config => config.efficiency) = some (1 / 2) ∧
    calculateRAIDStorage "raid1" (List.map fin [4, 4, 4])
      = .ok { usableCapacity := fin (tib 4)
              rawCapacity := fin (3 * tib 4)
              efficiency := fin (1 / 3)
              wastedSpace := fin (2 * tib 4) } ∧
    fin (1 / 3) ≠ fin (1 / 2) := by
  refine ⟨rfl, ?_, ?_⟩
  · simp [calculateRAIDStorage, RAID_CONFIGS, RAID_CONFIGS_ENTRIES, List.lookup,
      usableCapacityOf, reduceSum, mathMin, JSNum.lt, tib]
    norm_num [fin_div_fin_ite]
  · intro h
    injection h with h
    norm_num at h

/-- C12, amended. On `n ≥ minDrives` equal positive drive sizes (`n` even for `raid10`), a
scheme whose descriptor has a fixed efficiency is one of `raid0`, `zfs-stripe` (`1`) and
`raid1`, `raid10`, `zfs-mirror` (`1/2`).  For `raid0`, `zfs-stripe` and `raid10` the efficiency
`calculateRAIDStorage` returns is the fixed one; for `raid1` and `zfs-mirror` it is `1 / n`,
which is the fixed `1/2` exactly when `n = 2`. -/
theorem fixed_efficiency (raidType : String) (cfg : RaidConfig) (e s : ℚ) (drives : List ℚ)
    (hcfg : RAID_CONFIGS raidType = some cfg) (he : cfg.efficiency = some e) (hs : 0 < s)
    (heq : ∀ x ∈ drives, x = s) (hn : cfg.minDrives ≤ drives.length)
    (heven : raidType = "raid10" → drives.length % 2 = 0) :
    (((raidType = "raid0" ∨ raidType = "zfs-stripe") ∧ e = 1) ∨
      ((raidType = "raid1" ∨ raidType = "raid10" ∨ raidType = "zfs-mirror") ∧ e = 1 / 2)) ∧
    ∃ r, calculateRAIDStorage raidType (drives.map fin) = .ok r ∧
      (raidType = "raid0" ∨ raidType = "zfs-stripe" ∨ raidType = "raid10" →
        r.efficiency = fin e) ∧
      (raidType = "raid1" ∨ raidType = "zfs-mirror" →
        r.efficiency = fin (1 / (drives.length : ℚ)) ∧
        (r.efficiency = fin e ↔ drives.length = 2)) := by
  have hpos : 1 ≤ drives.length := le_trans (registered_minDrives_pos hcfg) hn
  have hne : drives ≠ [] := ne_nil_of_pos_length hpos
  have hne' : drives.map tib ≠ [] := by simpa using hne
  have hl : leastOf (drives.map tib) = tib s := by
    rw [leastOf_map_tib, leastOf_of_all_eq heq hne]
  have hsum := sum_map_tib_of_all_eq heq
  have ht : tib s ≠ 0 := tib_ne_zero hs.ne'
  have hlen : (drives.length : ℚ) ≠ 0 := by exact_mod_cast (by omega : drives.length ≠ 0)
  have hraw : (drives.length : ℚ) * tib s ≠ 0 := mul_ne_zero hlen ht
  have hmem := registered_mem hcfg
  simp only [RAID_CONFIGS_ENTRIES, List.mem_cons, Prod.mk.injEq, List.mem_singleton,
    List.not_mem_nil, or_false] at hmem
  have hstripe : raidType = "raid0" ∨ raidType = "zfs-stripe" → e = 1 →
      ∃ r, calculateRAIDStorage raidType (drives.map fin) = .ok r ∧ r.efficiency = fin e := by
    intro h0 he1
    refine ⟨_, calculateRAIDStorage_fin hcfg hn (usableCapacityOf_stripe h0 _ _ _), ?_⟩
    simp only [hsum]
    rw [fin_div_fin _ hraw, div_self hraw, he1]
  have hmirror : raidType = "raid1" ∨ raidType = "zfs-mirror" →
      ∃ r, calculateRAIDStorage raidType (drives.map fin) = .ok r ∧
        r.efficiency = fin (1 / (drives.length : ℚ)) := by
    intro h1
    have hu : usableCapacityOf raidType drives.length ((drives.map tib).map fin)
        (fin (drives.map tib).sum) = .ok (fin (tib s)) := by
      rw [usableCapacityOf_mirror h1, mathMin_fin hne', hl]
    refine ⟨_, calculateRAIDStorage_fin hcfg hn hu, ?_⟩
    simp only [hsum]
    rw [fin_div_fin _ hraw]
    congr 1
    field_simp
    ring
  have hhalf : (fin (1 / (drives.length : ℚ)) = fin (1 / 2) ↔ drives.length = 2) := by
    constructor
    · intro h
      injection h with h
      have h2 : (drives.length : ℚ) = 2 := by
        field_simp at h
        linarith
      exact_mod_cast h2
    · intro h
      rw [h]
      norm_num
  rcases hmem with ⟨rfl, rfl⟩ | ⟨rfl, rfl⟩ | ⟨rfl, rfl⟩ | ⟨rfl, rfl⟩ | ⟨rfl, rfl⟩ | ⟨rfl, rfl⟩ |
    ⟨rfl, rfl⟩ | ⟨rfl, rfl⟩ | ⟨rfl, rfl⟩ | ⟨rfl, rfl⟩ | ⟨rfl, rfl⟩ | ⟨rfl, rfl⟩ | ⟨rfl, rfl⟩ |
    ⟨rfl, rfl⟩
  · have he1 : e = 1 := by simpa using he.symm
    obtain ⟨r, hr, hre⟩ := hstripe (Or.inl rfl) he1
    exact ⟨Or.inl ⟨Or.inl rfl, he1⟩, r, hr, fun _ => hre, fun h => by simp at h⟩
  · have he1 : e = 1 / 2 := by simpa using he.symm
    obtain ⟨r, hr, hre⟩ := hmirror (Or.inl rfl)
    exact ⟨Or.inr ⟨Or.inl rfl, he1⟩, r, hr, fun h => by simp at h,
      fun _ => ⟨hre, by rw [hre, he1]; exact hhalf⟩⟩
  · simp at he
  · simp at he
  · have he1 : e = 1 / 2 := by simpa using he.symm
    have hev : drives.length % 2 = 0 := heven rfl
    have hu : usableCapacityOf "raid10" drives.length ((drives.map tib).map fin)
        (fin (drives.map tib).sum) = .ok (fin ((drives.length : ℚ) / 2 * tib s)) := by
      rw [usableCapacityOf_raid10 hev, mathMin_fin hne', hl, JSNum.ofNat,
        fin_div_fin _ (by norm_num), fin_mul_fin]
    refine ⟨Or.inr ⟨Or.inr (Or.inl rfl), he1⟩, _, calculateRAIDStorage_fin hcfg hn hu, ?_,
      fun h => by simp at h⟩
    intro _
    simp only [hsum]
    rw [fin_div_fin _ hraw, he1]
    congr 1
    field_simp
    ring
  · simp at he
  · simp at he
  · have he1 : e = 1 := by simpa using he.symm
    obtain ⟨r, hr, hre⟩ := hstripe (Or.inr rfl) he1
    exact ⟨Or.inl ⟨Or.inr rfl, he1⟩, r, hr, fun _ => hre, fun h => by simp at h⟩
  · have he1 : e = 1 / 2 := by simpa using he.symm
    obtain ⟨r, hr, hre⟩ := hmirror (Or.inr rfl)
    exact ⟨Or.inr ⟨Or.inr (Or.inr rfl), he1⟩, r, hr, fun h => by simp at h,
      fun _ => ⟨hre, by rw [hre, he1]; exact hhalf⟩⟩
  · simp at he
  · simp at he
  · simp at he
  · simp at he
  · simp at he

/-- C12 amended, on instances: `raid10` on four equal 4 TB drives returns the fixed `1/2`, and
`zfs-mirror` on three equal 4 TB drives returns `1/3`. -/
theorem fixed_efficiency_witness :
    (∃ r, calculateRAIDStorage "raid10" (List.map fin [4, 4, 4, 4]) = .ok r ∧
      r.efficiency = fin (1 / 2)) ∧
    (∃ r, calculateRAIDStorage "zfs-mirror" (List.map fin [4, 4, 4]) = .ok r ∧
      r.efficiency = fin (1 / 3)) := by
  have hall : ∀ l : List ℚ, (∀ x ∈ l, x ∈ [(4 : ℚ)]) → ∀ x ∈ l, x = 4 := by
    intro l h x hx
    simpa using h x hx
  obtain ⟨-, r, hr, h10, -⟩ := fixed_efficiency "raid10" ⟨"RAID 10",
      "Mirrored stripes - Best performance with redundancy", 4, 1, "Excellent", "Good",
      some (1 / 2)⟩ (1 / 2) 4 [4, 4, 4, 4] rfl rfl (by norm_num)
      (hall _ (by intro x hx; simpa using hx)) (by decide) (fun _ => rfl)
  obtain ⟨-, r', hr', -, hm⟩ := fixed_efficiency "zfs-mirror" ⟨"ZFS Mirror",
      "Mirrored vdevs - High redundancy", 2, 1, "Excellent", "Good", some (1 / 2)⟩ (1 / 2) 4
      [4, 4, 4] rfl rfl (by norm_num) (hall _ (by intro x hx; simpa using hx)) (by decide)
      (fun h => absurd h (by decide))
  refine ⟨⟨r, hr, h10 (Or.inr (Or.inr rfl))⟩, r', hr', ?_⟩
  rw [(hm (Or.inr rfl)).1]
  norm_num

/-- C13. For `raid1` and `zfs-mirror` and two or more drive sizes, `calculateRAIDStorage`
returns as `usableCapacity` the least converted size, which is the converted size of the
smallest drive, whatever the number and the sizes of the other drives. -/
theorem mirroring_usable (raidType : String) (drives : List ℚ)
    (hs : raidType = "raid1" ∨ raidType = "zfs-mirror") (hn : 2 ≤ drives.length) :
    ∃ r, calculateRAIDStorage raidType (drives.map fin) = .ok r ∧
      r.usableCapacity = fin (leastOf (drives.map tib)) ∧
      leastOf (drives.map tib) ∈ drives.map tib ∧
      (∀ y ∈ drives.map tib, leastOf (drives.map tib) ≤ y) ∧
      r.usableCapacity = convertTBtoTiB (fin (leastOf drives)) := by
  have hne : drives ≠ [] := ne_nil_of_pos_length (by omega)
  have hne' : drives.map tib ≠ [] := by simpa using hne
  have hspec := leastOf_map_tib_spec hne
  have hcfg : ∃ cfg, RAID_CONFIGS raidType = some cfg ∧ cfg.minDrives = 2 := by
    rcases hs with rfl | rfl
    · exact ⟨_, rfl, rfl⟩
    · exact ⟨_, rfl, rfl⟩
  obtain ⟨cfg, hcfg, hmin⟩ := hcfg
  have hu : usableCapacityOf raidType drives.length ((drives.map tib).map fin)
      (fin (drives.map tib).sum) = .ok (fin (leastOf (drives.map tib))) := by
    rw [usableCapacityOf_mirror hs, mathMin_fin hne']
  refine ⟨_, calculateRAIDStorage_fin hcfg (by rw [hmin]; exact hn) hu, rfl, hspec.1,
    hspec.2, ?_⟩
  rw [convertTBtoTiB_fin, leastOf_map_tib]

/-- C13 on Scenario B: `raid1` on the drives `[8, 10, 12, 12]` gives `convertTBtoTiB(8)`. -/
theorem mirroring_usable_witness :
    ("raid1" = "raid1" ∨ "raid1" = "zfs-mirror") ∧ 2 ≤ [(8 : ℚ), 10, 12, 12].length ∧
    ∃ r, calculateRAIDStorage "raid1" (List.map fin [8, 10, 12, 12]) = .ok r ∧
      r.usableCapacity = convertTBtoTiB (fin 8) := by
  obtain ⟨r, hr, -, -, -, hu⟩ := mirroring_usable "raid1" [8, 10, 12, 12] (Or.inl rfl)
    (by decide)
  refine ⟨Or.inl rfl, by decide, r, hr, ?_⟩
  rw [hu]
  norm_num [leastOf]

/-- C14. For `raid10` and an even number `n ≥ 4` of drive sizes, `calculateRAIDStorage`
returns `usableCapacity = (n / 2) *` the least converted size. -/
theorem raid10_usable (drives : List ℚ) (hn : 4 ≤ drives.length)
    (heven : drives.length % 2 = 0) :
    ∃ r, calculateRAIDStorage "raid10" (drives.map fin) = .ok r ∧
      r.usableCapacity = fin ((drives.length : ℚ) / 2 * leastOf (drives.map tib)) ∧
      leastOf (drives.map tib) ∈ drives.map tib ∧
      (∀ y ∈ drives.map tib, leastOf (drives.map tib) ≤ y) ∧
      r.usableCapacity
        = JSNum.ofNat drives.length / fin 2 * convertTBtoTiB (fin (leastOf drives)) := by
  have hne : drives ≠ [] := ne_nil_of_pos_length (by omega)
  have hne' : drives.map tib ≠ [] := by simpa using hne
  have hspec := leastOf_map_tib_spec hne
  have hcfg : RAID_CONFIGS "raid10" = some ⟨"RAID 10",
      "Mirrored stripes - Best performance with redundancy", 4, 1, "Excellent", "Good",
      some (1 / 2)⟩ := rfl
  have hhalf : JSNum.ofNat drives.length / fin 2 = fin ((drives.length : ℚ) / 2) := by
    rw [JSNum.ofNat, fin_div_fin _ (by norm_num)]
  have hu : usableCapacityOf "raid10" drives.length ((drives.map tib).map fin)
      (fin (drives.map tib).sum)
        = .ok (fin ((drives.length : ℚ) / 2 * leastOf (drives.map tib))) := by
    rw [usableCapacityOf_raid10 heven, mathMin_fin hne', hhalf, fin_mul_fin]
  refine ⟨_, calculateRAIDStorage_fin hcfg hn hu, rfl, hspec.1, hspec.2, ?_⟩
  rw [hhalf, convertTBtoTiB_fin, fin_mul_fin, leastOf_map_tib]

/-- C14 on an instance: `raid10` on the drives `[8, 4, 6, 4]` gives `2 * convertTBtoTiB(4)`. -/
theorem raid10_usable_witness :
    4 ≤ [(8 : ℚ), 4, 6, 4].length ∧ [(8 : ℚ), 4, 6, 4].length % 2 = 0 ∧
    ∃ r, calculateRAIDStorage "raid10" (List.map fin [8, 4, 6, 4]) = .ok r ∧
      r.usableCapacity = fin 2 * convertTBtoTiB (fin 4) := by
  obtain ⟨r, hr, -, -, -, hu⟩ := raid10_usable [8, 4, 6, 4] (by decide) rfl
  refine ⟨by decide, rfl, r, hr, ?_⟩
  rw [hu]
  norm_num [leastOf, JSNum.ofNat, fin_div_fin_ite]

/-- C15. The constants `TB_TO_BYTES_DECIMAL` and `TB_TO_BYTES_BINARY` are `10^12` and `2^40`;
`convertTBtoTiB(x)` multiplies `x` by the first and divides by the second, so on a rational
`x` it is `x * 10^12 / 2^40`. -/
theorem convertTBtoTiB_exact :
    TB_TO_BYTES_DECIMAL = fin (10 ^ 12) ∧ TB_TO_BYTES_BINARY = fin (2 ^ 40) ∧
    (∀ x : JSNum, convertTBtoTiB x = x * TB_TO_BYTES_DECIMAL / TB_TO_BYTES_BINARY) ∧
    (∀ x : ℚ, convertTBtoTiB (fin x) = fin (x * 10 ^ 12 / 2 ^ 40)) ∧
    (∀ x : ℚ, tib x = x * 10 ^ 12 / 2 ^ 40) := by
  refine ⟨?_, ?_, fun x => rfl, ?_, ?_⟩
  · rw [TB_TO_BYTES_DECIMAL]; norm_num
  · rw [TB_TO_BYTES_BINARY]; norm_num
  · intro x
    rw [convertTBtoTiB_fin, tib]
    norm_num
  · intro x
    rw [tib]
    norm_num

/-- C16. For `zfs-mirror`, `raidz1`, `raidz2` and `raidz3` and at least `minDrives` drives,
`calculateZFSVdevStorage(scheme, drives, 1, n)` returns the record that
`calculateRAIDStorage(scheme, drives)` returns: the same `usableCapacity`, `rawCapacity`,
`efficiency` and `wastedSpace`. -/
theorem single_group_agrees (raidType : String) (cfg : RaidConfig) (drives : List JSNum)
    (hs : raidType = "zfs-mirror" ∨ raidType = "raidz1" ∨ raidType = "raidz2" ∨
      raidType = "raidz3")
    (hcfg : RAID_CONFIGS raidType = some cfg) (hn : cfg.minDrives ≤ drives.length) :
    ∃ r, calculateRAIDStorage raidType drives = .ok r ∧
      calculateZFSVdevStorage raidType drives 1 (drives.length : ℤ) = .ok r := by
  have hlen : (drives.map convertTBtoTiB).length = drives.length := List.length_map _ _
  have hu := usableCapacityOf_eq_vdevCapacityOf hs drives.length (drives.map convertTBtoTiB)
    (reduceSum (drives.map convertTBtoTiB))
  have hloop := vdevLoop_single raidType (drives.map convertTBtoTiB)
  rw [hlen] at hloop
  refine ⟨_, calculateRAIDStorage_ok hcfg hn hu, ?_⟩
  rw [calculateZFSVdevStorage_ok raidType (by simp), hloop]

/-- C16 on an instance: `raidz1` on the drives `[4, 8, 6]`, as one vdev of three drives and
as a single array. -/
theorem single_group_agrees_witness :
    3 ≤ [fin 4, fin 8, fin 6].length ∧
    ∃ r, calculateRAIDStorage "raidz1" [fin 4, fin 8, fin 6] = .ok r ∧
      calculateZFSVdevStorage "raidz1" [fin 4, fin 8, fin 6] 1 3 = .ok r :=
  ⟨by decide, single_group_agrees "raidz1" ⟨"RAIDZ1", "Single parity - ZFS equivalent to RAID 5",
    3, 1, "Good", "Moderate", none⟩ [fin 4, fin 8, fin 6] (Or.inr (Or.inl rfl)) rfl
    (by decide)⟩

end RaidCalc
